import Mathlib

/-!
# fnordlicht firmware: PWM timeslot scheduler, fade integrator, interrupts

A shallow embedding of `fnordlicht.c`: the gamma table, the timeslot
scheduler `update_pwm_timeslots`, the fade integrator `do_fading`, the slot
cursor `prepare_next_timeslot`, the spin loop of the cycle-start interrupt
and the uart command dispatcher.  Bytes (`uint8_t`) and words (`uint16_t`)
are natural numbers; every place where the C arithmetic truncates is written
with an explicit `% 256` or `% 65536`.
-/

namespace Fnordlicht

/-! ## Macros and constants -/

/-- Macro `LOW(x)`: `(uint8_t)(0x00ff & x)`. -/
def LOW (x : Nat) : Nat := (0x00ff &&& x) % 256

/-- Macro `HIGH(x)`: `(uint8_t)((0xff00 & x) >> 8)`. -/
def HIGH (x : Nat) : Nat := ((0xff00 &&& x) >>> 8) % 256

/-- Constant `PWM_CHANNELS`: the number of channels. -/
def PWM_CHANNELS : Nat := 3

/-- Constant `PWM_MAX_TIMESLOTS`: possible pwm interrupts in a pwm cycle. -/
def PWM_MAX_TIMESLOTS : Nat := PWM_CHANNELS + 1

/-! ## Data model -/

/-- Record `struct Channel_t`: all the data for one color channel. -/
structure Channel where
  brightness : Nat
  remainder : Nat
  target_brightness : Nat
  speed : Nat
  flags : Nat
  mask : Nat
deriving DecidableEq, Repr

/-- The global `channels[3]`. -/
structure Channels where
  c0 : Channel
  c1 : Channel
  c2 : Channel
deriving DecidableEq, Repr

/-- Read `channels[i]`. -/
def Channels.get (chs : Channels) (i : Nat) : Channel :=
  match i with
  | 0 => chs.c0
  | 1 => chs.c1
  | _ => chs.c2

/-- Write `channels[i]`. -/
def Channels.set (chs : Channels) (i : Nat) (c : Channel) : Channels :=
  match i with
  | 0 => { chs with c0 := c }
  | 1 => { chs with c1 := c }
  | _ => { chs with c2 := c }

/-! ## Fade integrator -/

/-- Body of the loop of `do_fading` for one channel. -/
def fade_channel (c : Channel) : Channel :=
  if c.brightness < c.target_brightness then
    let value := (c.remainder + (c.brightness <<< 8) % 65536 + c.speed) % 65536
    if HIGH value < c.brightness ∨ HIGH value > c.target_brightness then
      { c with brightness := c.target_brightness }
    else
      { c with brightness := HIGH value, remainder := LOW value }
  else if c.brightness > c.target_brightness then
    let value :=
      (c.remainder + (c.brightness <<< 8) % 65536 + 65536 - c.speed % 65536) % 65536
    if HIGH value > c.brightness ∨ HIGH value < c.target_brightness then
      { c with brightness := c.target_brightness }
    else
      { c with brightness := HIGH value, remainder := LOW value }
  else c

/-- Function `do_fading`: fade any channels not already at their target brightness. -/
def do_fading (chs : Channels) : Channels :=
  (List.range PWM_CHANNELS).foldl (fun a i => a.set i (fade_channel (a.get i))) chs

/-- Reference fixed-point value `v` of the fade step, in unbounded integer
arithmetic reduced modulo 65536: `(brightness:remainder) + speed` when fading
up, `(brightness:remainder) - speed` when fading down. -/
def ref_value (c : Channel) : Int :=
  if c.brightness < c.target_brightness then
    ((c.brightness : Int) * 256 + c.remainder + c.speed) % 65536
  else
    ((c.brightness : Int) * 256 + c.remainder - c.speed) % 65536

/-- Reference clamp test: the high byte of `v` wrapped past the old brightness
or passed the target. -/
def ref_clamps (c : Channel) : Prop :=
  if c.brightness < c.target_brightness then
    ref_value c / 256 < c.brightness ∨ ref_value c / 256 > c.target_brightness
  else
    ref_value c / 256 > c.brightness ∨ ref_value c / 256 < c.target_brightness

instance (c : Channel) : Decidable (ref_clamps c) := by
  unfold ref_clamps; infer_instance

/-- Reference step of the spec, as a relation between a channel and its
successor: at the target nothing changes; otherwise the new brightness is the
target when the high byte of `v` wrapped or passed the target (the remainder
is then left unspecified), and else brightness and remainder are the high and
low byte of `v`.  Target, speed and mask are never modified. -/
def fade_ref (c c' : Channel) : Prop :=
  c'.target_brightness = c.target_brightness ∧ c'.speed = c.speed ∧ c'.mask = c.mask ∧
  if c.brightness = c.target_brightness then c' = c
  else if ref_clamps c then (c'.brightness : Int) = c.target_brightness
  else (c'.brightness : Int) = ref_value c / 256 ∧ (c'.remainder : Int) = ref_value c % 256

instance (c c' : Channel) : Decidable (fade_ref c c') := by
  unfold fade_ref; infer_instance

/-- Channel of scenario S5: brightness 10, remainder 0, target 255, speed 0x0180. -/
def s5_channel : Channel :=
  { brightness := 10, remainder := 0, target_brightness := 255, speed := 0x0180,
    flags := 0, mask := 1 }

/-! ## Timeslot scheduler -/

/-- One entry of `pwm.slots`: output mask and timer top value. -/
structure Slot where
  mask : Nat
  top : Nat
deriving DecidableEq, Repr

/-- Record `struct Timeslots_t`: all pwm data including the timeslot array.  The array
`slots[PWM_MAX_TIMESLOTS]` is kept as a map from index to entry; the indices
the scheduler touches are recorded in the access log of the walk. -/
structure Timeslots where
  slots : Nat → Slot
  index : Nat
  count : Nat
  next_bitmask : Nat
  initial_bitmask : Nat

/-- Record `struct Flags_t`: the two one-bit flags set by the interrupts. -/
structure Flags where
  new_cycle : Nat
  last_pulse : Nat
deriving DecidableEq, Repr

/-- Timer top values for the brightness levels (stored in flash). -/
def timeslot_table : List Nat := [
  2,     8,    18,    31,    49,    71,    96,   126,
  159,   197,   238,   283,   333,   386,   443,   504,
  569,   638,   711,   787,   868,   953,  1041,  1134,
  1230,  1331,  1435,  1543,  1655,  1772,  1892,  2016,
  2144,  2276,  2411,  2551,  2695,  2842,  2994,  3150,
  3309,  3472,  3640,  3811,  3986,  4165,  4348,  4535,
  4726,  4921,  5120,  5323,  5529,  5740,  5955,  6173,
  6396,  6622,  6852,  7087,  7325,  7567,  7813,  8063,
  8317,  8575,  8836,  9102,  9372,  9646,  9923, 10205,
  10490, 10779, 11073, 11370, 11671, 11976, 12285, 12598,
  12915, 13236, 13561, 13890, 14222, 14559, 14899, 15244,
  15592, 15945, 16301, 16661, 17025, 17393, 17765, 18141,
  18521, 18905, 19293, 19685, 20080, 20480, 20884, 21291,
  21702, 22118, 22537, 22960, 23387, 23819, 24254, 24693,
  25135, 25582, 26033, 26488, 26946, 27409, 27876, 28346,
  28820, 29299, 29781, 30267, 30757, 31251, 31750, 32251,
  32757, 33267, 33781, 34299, 34820, 35346, 35875, 36409,
  36946, 37488, 38033, 38582, 39135, 39692, 40253, 40818,
  41387, 41960, 42537, 43117, 43702, 44291, 44883, 45480,
  46080, 46684, 47293, 47905, 48521, 49141, 49765, 50393,
  51025, 51661, 52300, 52944, 53592, 54243, 54899, 55558,
  56222, 56889, 57560, 58235, 58914, 59598, 60285, 60975,
  61670, 62369, 63072, 63779,   489,  1204,  1922,  2645,
  3371,  4101,  4836,  5574,  6316,  7062,  7812,  8566,
  9324, 10085, 10851, 11621, 12394, 13172, 13954, 14739,
  15528, 16322, 17119, 17920, 18725, 19534, 20347, 21164,
  21985, 22810, 23638, 24471, 25308, 26148, 26993, 27841,
  28693, 29550, 30410, 31274, 32142, 33014, 33890, 34770,
  35654, 36542, 37433, 38329, 39229, 40132, 41040, 41951,
  42866, 43786, 44709, 45636, 46567, 47502, 48441, 49384,
  50331, 51282, 52236, 53195, 54158, 55124, 56095, 57069,
  58047, 59030, 60016, 61006, 62000, 62998]

/-- Flash read `pgm_read_word(&timeslot_table[i])`. -/
def pgm_read_word (i : Nat) : Nat := timeslot_table.getD i 0

/-- Store `s` into entry `j` of a slot array. -/
def write (a : Nat → Slot) (j : Nat) (s : Slot) : Nat → Slot :=
  fun k => if k = j then s else a k

/-- The middle interrupt: top 65k and mask 0xff. -/
def middle : Slot := { mask := 0xff, top := 65000 }

/-- Array accesses made by `update_pwm_timeslots` (ghost record): a write of
`slots[idx]`, the mask overwrite of `slots[idx]` in the else branch together
with the entry found there, and a read of `timeslot_table[idx]`. -/
inductive Access where
  | slot_write (idx : Int)
  | mask_write (idx : Int) (old : Slot)
  | table_read (idx : Int)
deriving DecidableEq, Repr

/-- Local variables of the second loop of `update_pwm_timeslots`, with the
slot array and the access record. -/
structure Walk where
  j : Nat
  mask : Nat
  last_brightness : Nat
  slots : Nat → Slot
  log : List Access

/-- One compare-and-swap of the sorting loops, at positions `i` and `j`. -/
def sort_swap (chs : Channels) (sorted : List Nat) (i j : Nat) : List Nat :=
  if (chs.get (sorted.getD j 0)).brightness < (chs.get (sorted.getD i 0)).brightness then
    let temp := sorted.getD i 0
    (sorted.set i (sorted.getD j 0)).set j temp
  else sorted

/-- Sort channels according to the current brightness: the two nested loops
over `i` and `j = i+1 ..` starting from `sorted = { 0, 1, 2 }`. -/
def sort_channels (chs : Channels) : List Nat :=
  (List.range PWM_CHANNELS).foldl
    (fun sorted i =>
      (List.range' (i + 1) (PWM_CHANNELS - (i + 1))).foldl
        (fun sorted j => sort_swap chs sorted i j) sorted)
    [0, 1, 2]

/-- Insert the middle interrupt at `slots[j]` and advance `j`. -/
def insert_middle (w : Walk) : Walk :=
  { w with
    slots := write w.slots w.j middle
    j := (w.j + 1) % 256
    log := w.log ++ [Access.slot_write w.j] }

/-- Body of the loop that calculates timeslots and masks, for the channel
record `c = channels[sorted[i]]`.  The index `j - 1` of the else branch is
a natural number here; the access record keeps it as the integer `j - 1`. -/
def walk_channel (w : Walk) (c : Channel) : Walk :=
  if c.brightness > 0 ∧ c.brightness < 255 then
    let w1 := if w.last_brightness < 181 ∧ c.brightness ≥ 181 then insert_middle w else w
    if c.brightness > w1.last_brightness then
      let mask := w1.mask ||| c.mask
      { j := (w1.j + 1) % 256
        mask := mask
        last_brightness := c.brightness
        slots := write w1.slots w1.j
          { mask := mask, top := pgm_read_word (c.brightness - 1) }
        log := w1.log ++
          [Access.table_read ((c.brightness : Int) - 1), Access.slot_write w1.j] }
    else
      let mask := w1.mask ||| c.mask
      { w1 with
        mask := mask
        slots := write w1.slots (w1.j - 1) { w1.slots (w1.j - 1) with mask := mask }
        log := w1.log ++ [Access.mask_write ((w1.j : Int) - 1) (w1.slots (w1.j - 1))] }
  else w

/-- Iteration `i` of the loop that calculates timeslots and masks. -/
def walk_step (chs : Channels) (sorted : List Nat) (w : Walk) (i : Nat) : Walk :=
  walk_channel w (chs.get (sorted.getD i 0))

/-- Local variables at the entry of the loop that calculates timeslots. -/
def walk_init (slots : Nat → Slot) : Walk :=
  { j := 0, mask := 0, last_brightness := 0, slots := slots, log := [] }

/-- If all interrupts happen before the middle interrupt, insert it at the end. -/
def walk_finish (w : Walk) : Walk :=
  if w.last_brightness < 181 then insert_middle w else w

/-- The slot-building part of `update_pwm_timeslots`: sort, walk the sorted
channels, and insert the middle interrupt at the end if it was not inserted
before. -/
def build_slots (chs : Channels) (slots : Nat → Slot) : Walk :=
  let sorted := sort_channels chs
  walk_finish ((List.range PWM_CHANNELS).foldl (walk_step chs sorted) (walk_init slots))

/-- Calculate the initial bitmask: `0xff` with `~mask` of every lit channel
ANDed in (the result is stored in a byte). -/
def calc_initial_bitmask (chs : Channels) : Nat :=
  (List.range PWM_CHANNELS).foldl
    (fun b i =>
      if (chs.get i).brightness > 0 then (b &&& (255 - (chs.get i).mask % 256)) % 256 else b)
    0xff

/-- Function `update_pwm_timeslots`: update pwm timeslot table. -/
def update_pwm_timeslots (chs : Channels) (pwm : Timeslots) : Timeslots :=
  let w := build_slots chs pwm.slots
  { slots := w.slots
    index := 0
    count := w.j
    next_bitmask := 0
    initial_bitmask := calc_initial_bitmask chs }

/-- The published schedule: the first `count` entries of `slots`. -/
def schedule (pwm : Timeslots) : List Slot :=
  (List.range pwm.count).map pwm.slots

/-- The three channel records as a list. -/
def Channels.toList (chs : Channels) : List Channel := [chs.c0, chs.c1, chs.c2]

/-- The brightness values of a list of channels. -/
def levels (cs : List Channel) : List Nat := cs.map Channel.brightness

/-- Bitwise OR of the masks of the channels with brightness in `1..b`. -/
def mask_upto (cs : List Channel) (b : Nat) : Nat :=
  ((cs.filter (fun c => 1 ≤ c.brightness ∧ c.brightness ≤ b)).map Channel.mask).foldl
    (fun a m => a ||| m) 0

/-- The slot for brightness level `b`: top from the table, mask of all
channels switched off by then. -/
def slot_for (cs : List Channel) (b : Nat) : Slot :=
  { mask := mask_upto cs b, top := pgm_read_word (b - 1) }

/-- Levels `lo ≤ b ≤ hi` present among the channels, in ascending order. -/
def present_levels (cs : List Channel) (lo hi : Nat) : List Nat :=
  (List.range' lo (hi + 1 - lo)).filter (fun b => b ∈ levels cs)

/-- The distinct brightness values of the channels that lie in `lo..hi`. -/
def distinct_levels (cs : List Channel) (lo hi : Nat) : List Nat :=
  ((levels cs).filter (fun b => lo ≤ b ∧ b ≤ hi)).dedup

/-- The channel record written by the loop of `init_pwm` for channel `i`, with
brightness and target brightness then set to `b`. -/
def init_record (i b : Nat) : Channel :=
  { brightness := b, remainder := 0, target_brightness := b, speed := 0x0100,
    flags := 0, mask := 1 <<< i }

/-- Channel records as `init_pwm` sets them up, at brightness `b0`, `b1`, `b2`. -/
def channels_at (b0 b1 b2 : Nat) : Channels :=
  ⟨init_record 0 b0, init_record 1 b1, init_record 2 b2⟩

/-- Some channel has a brightness in `181..254`, whose table entry lies in the
second half of the pwm cycle. -/
def crosses_middle (cs : List Channel) : Prop :=
  ∃ c ∈ cs, 181 ≤ c.brightness ∧ c.brightness ≤ 254

instance (cs : List Channel) : Decidable (crosses_middle cs) := by
  unfold crosses_middle; infer_instance

/-- Function `init_pwm` up to the call of `update_pwm_timeslots`: the initial channel
records, at brightness 8, 14 and 15. -/
def init_channels : Channels := channels_at 8 14 15

/-- The zero-initialised global `pwm`. -/
def pwm_zero : Timeslots :=
  { slots := fun _ => ⟨0, 0⟩, index := 0, count := 0, next_bitmask := 0, initial_bitmask := 0 }

/-! ## Fade duration -/

/-- Quotient rounded up. -/
def ceil_div (a b : Nat) : Nat := (a + b - 1) / b

/-- Distance between the brightness of a channel and its target. -/
def fade_distance (c : Channel) : Nat :=
  max c.brightness c.target_brightness - min c.brightness c.target_brightness

/-- The number of cycles the spec's duration law predicts:
`ceil(|t - b| * 256 / high(speed))`. -/
def claimed_fade_duration (c : Channel) : Nat :=
  ceil_div (fade_distance c * 256) (HIGH c.speed)

/-- Duration with the whole 16-bit speed as divisor: `ceil(|t - b| * 256 / speed)`. -/
def fade_duration (c : Channel) : Nat :=
  ceil_div (fade_distance c * 256) c.speed

/-- After exactly `n` calls of `do_fading` the channel is at its target for
the first time. -/
def first_at_target (c : Channel) (n : Nat) : Prop :=
  (fade_channel^[n] c).brightness = c.target_brightness ∧
    ∀ k, k < n → (fade_channel^[k] c).brightness ≠ c.target_brightness

instance (c : Channel) (n : Nat) : Decidable (first_at_target c n) := by
  unfold first_at_target; infer_instance

/-- A channel one level below its target at speed 0x0100 (one level per cycle). -/
def one_level_channel : Channel :=
  { brightness := 0, remainder := 0, target_brightness := 1, speed := 0x0100,
    flags := 0, mask := 1 }

/-! ## Machine state and command dispatcher -/

/-- The globals and the registers the firmware writes: `channels`, `pwm`,
`flags`, the compare register `OCR1B`, the output port `PORTB`, and the bytes
written to the uart data register `UDR`, oldest first. -/
structure State where
  channels : Channels
  pwm : Timeslots
  flags : Flags
  OCR1B : Nat
  PORTB : Nat
  uart : List Nat

/-- Assign `channels[i].target_brightness`. -/
def set_target (chs : Channels) (i t : Nat) : Channels :=
  chs.set i { chs.get i with target_brightness := t }

/-- Assign `channels[i].speed`. -/
def set_speed (chs : Channels) (i v : Nat) : Channels :=
  chs.set i { chs.get i with speed := v }

/-- Handler `SIGNAL(SIG_UART_RECV)`: the uart receive interrupt, for the received byte
`data`.  Byte and word arithmetic wraps modulo 256 and 65536. -/
def SIG_UART_RECV (s : State) (data : Nat) : State :=
  let chs := s.channels
  if data = Char.toNat '1' then
    { s with channels := set_target chs 0 ((chs.c0.target_brightness + 256 - 1) % 256) }
  else if data = Char.toNat '4' then
    { s with channels := set_target chs 0 ((chs.c0.target_brightness + 1) % 256) }
  else if data = Char.toNat '2' then
    { s with channels := set_target chs 1 ((chs.c1.target_brightness + 256 - 1) % 256) }
  else if data = Char.toNat '5' then
    { s with channels := set_target chs 1 ((chs.c1.target_brightness + 1) % 256) }
  else if data = Char.toNat '3' then
    { s with channels := set_target chs 2 ((chs.c2.target_brightness + 256 - 1) % 256) }
  else if data = Char.toNat '6' then
    { s with channels := set_target chs 2 ((chs.c2.target_brightness + 1) % 256) }
  else if data = Char.toNat '0' then
    let chs0 := set_target chs 0 0
    let chs1 := set_target chs0 1 0
    { s with channels := set_target chs1 2 0 }
  else if data = Char.toNat '=' then
    let chs0 := set_target chs 0 chs.c0.brightness
    let chs1 := set_target chs0 1 chs.c1.brightness
    { s with channels := set_target chs1 2 chs.c2.brightness }
  else if data = Char.toNat '>' then
    let chs0 := set_speed chs 0 (chs.c0.speed >>> 1)
    let chs1 := set_speed chs0 1 (chs.c1.speed >>> 1)
    { s with channels := set_speed chs1 2 (chs.c2.speed >>> 1) }
  else if data = Char.toNat '<' then
    let chs0 := set_speed chs 0 ((chs.c0.speed <<< 1) % 65536)
    let chs1 := set_speed chs0 1 ((chs.c1.speed <<< 1) % 65536)
    { s with channels := set_speed chs1 2 ((chs.c2.speed <<< 1) % 65536) }
  else if data = Char.toNat 's' then
    { s with uart := s.uart ++ [HIGH chs.c0.speed, LOW chs.c0.speed] }
  else if data = Char.toNat 'b' then
    let reply := [chs.c0.brightness % 256, chs.c1.brightness % 256, chs.c2.brightness % 256]
    { s with uart := s.uart ++ reply }
  else s

/-- Feed a sequence of received bytes to the dispatcher, one interrupt each. -/
def feed (s : State) (bytes : List Nat) : State :=
  bytes.foldl SIG_UART_RECV s

/-- Start state of scenario S6: targets (0,0,0), speed 0x0100, nothing sent yet. -/
def s6_state : State :=
  { channels := channels_at 0 0 0, pwm := pwm_zero, flags := ⟨0, 0⟩,
    OCR1B := 65000, PORTB := 7, uart := [] }

/-! ## Command bytes and the main loop -/

/-- The command byte that increments the target of channel `k`: `'4'`, `'5'`, `'6'`. -/
def inc_command (k : Nat) : Nat :=
  match k with
  | 0 => Char.toNat '4'
  | 1 => Char.toNat '5'
  | _ => Char.toNat '6'

/-- The command byte that decrements the target of channel `k`: `'1'`, `'2'`, `'3'`. -/
def dec_command (k : Nat) : Nat :=
  match k with
  | 0 => Char.toNat '1'
  | 1 => Char.toNat '2'
  | _ => Char.toNat '3'

/-- The bytes that have a case in the switch of the uart receive interrupt. -/
def command_set : List Nat :=
  ['0', '1', '2', '3', '4', '5', '6', '=', '>', '<', 's', 'b'].map Char.toNat

/-- A state with the given channel records, a zeroed `pwm`, cleared flags,
and the registers as the init functions leave them. -/
def state_of (chs : Channels) : State :=
  { channels := chs, pwm := pwm_zero, flags := ⟨0, 0⟩, OCR1B := 65000, PORTB := 7, uart := [] }

/-- The state when `main` enters its loop: after `init_output` (port 0x07),
`init_uart` (boot message `'B'`), `init_timer1` (compare B at 65000) and
`init_pwm`. -/
def init_state : State :=
  { channels := init_channels
    pwm := update_pwm_timeslots init_channels pwm_zero
    flags := ⟨0, 0⟩
    OCR1B := 65000
    PORTB := 7
    uart := [Char.toNat 'B'] }

/-- Body of `if (flags.new_cycle)` in the main loop: clear the flag and fade. -/
def main_new_cycle (s : State) : State :=
  { s with flags := { s.flags with new_cycle := 0 }, channels := do_fading s.channels }

/-- Body of `if (flags.last_pulse)` in the main loop: clear the flag, rebuild
the timeslot table and send `pwm.count`. -/
def main_last_pulse (s : State) : State :=
  let pwm := update_pwm_timeslots s.channels s.pwm
  { s with flags := { s.flags with last_pulse := 0 }, pwm := pwm, uart := s.uart ++ [pwm.count % 256] }

/-- Every channel has `speed ≥ 1`. -/
def speeds_positive (chs : Channels) : Prop :=
  1 ≤ chs.c0.speed ∧ 1 ≤ chs.c1.speed ∧ 1 ≤ chs.c2.speed

instance (chs : Channels) : Decidable (speeds_positive chs) := by
  unfold speeds_positive; infer_instance

/-! ## Interrupt handlers -/

/-- Function `prepare_next_timeslot`: after the last slot select the first
timeslot again and trigger the rebuild, else load top and bitmask of the
current slot and select the next one. -/
def prepare_next_timeslot (s : State) : State :=
  if s.pwm.index ≥ s.pwm.count then
    { s with
      pwm := { s.pwm with index := 0 }
      flags := { s.flags with last_pulse := 1 }
      OCR1B := 65000 }
  else
    { s with
      OCR1B := (s.pwm.slots s.pwm.index).top
      pwm := { s.pwm with
        next_bitmask := (s.pwm.slots s.pwm.index).mask
        index := (s.pwm.index + 1) % 256 } }

/-- State of the spin loop of the cycle-start interrupt together with a ghost
record: the indices `pwm.index` at which `pwm.slots` was read, the indices of
the slots whose mask was ORed into the port, and whether the outer loop has
been left. -/
structure Spin where
  state : State
  reads : List Nat
  ored : List Nat
  exited : Bool

/-- The loop `while (TCNT1 + 500 > pwm.slots[pwm.index].top) { while
(pwm.slots[pwm.index].top > TCNT1) nop; PORTB |= mask; pwm.index++; }` of the
cycle-start interrupt.  Every evaluation of a loop condition reads the timer
`TCNT1` and takes the next value of the list of timer readings; `inner` tells
whether control is at the inner loop.  The sum `TCNT1 + 500` is an unsigned
16-bit sum.  When the readings are used up the loop is still running. -/
def spin_catchup : List Nat → Bool → Spin → Spin
  | [], _, r => r
  | t :: ts, false, r =>
    let i := r.state.pwm.index
    let r1 := { r with reads := r.reads ++ [i] }
    if (t % 65536 + 500) % 65536 > (r.state.pwm.slots i).top then
      spin_catchup ts true r1
    else
      { r1 with exited := true }
  | t :: ts, true, r =>
    let s := r.state
    let i := s.pwm.index
    if (s.pwm.slots i).top > t % 65536 then
      spin_catchup ts true { r with reads := r.reads ++ [i] }
    else
      let port := (s.PORTB ||| (s.pwm.slots i).mask) % 256
      let s1 := { s with PORTB := port, pwm := { s.pwm with index := (i + 1) % 256 } }
      spin_catchup ts false
        { state := s1, reads := r.reads ++ [i, i], ored := r.ored ++ [i], exited := false }

/-- Handler `SIGNAL(SIG_OUTPUT_COMPARE1A)`: the timer1 overflow interrupt, with
the timer readings its spin loop sees. -/
def SIG_OUTPUT_COMPARE1A (s : State) (readings : List Nat) : State :=
  if s.pwm.next_bitmask = 0 then
    let s1 := { s with
      PORTB := s.pwm.initial_bitmask % 256
      flags := { s.flags with new_cycle := 1 } }
    prepare_next_timeslot (spin_catchup readings false ⟨s1, [], [], false⟩).state
  else
    prepare_next_timeslot s

/-- Handler `SIGNAL(SIG_OUTPUT_COMPARE1B)`: output the pre-calculated bitmask
and calculate the next timeslot. -/
def SIG_OUTPUT_COMPARE1B (s : State) : State :=
  prepare_next_timeslot { s with PORTB := (s.PORTB ||| s.pwm.next_bitmask) % 256 }

/-- An array access of `update_pwm_timeslots` stays in bounds: a slot write
hits one of the `PWM_MAX_TIMESLOTS` entries, the mask overwrite `slots[j-1]`
has `j ≥ 1` and does not hit the middle interrupt, and a table read hits an
entry of `timeslot_table`. -/
def access_ok : Access → Prop
  | Access.slot_write idx => 0 ≤ idx ∧ idx < (PWM_MAX_TIMESLOTS : Int)
  | Access.mask_write idx old => 0 ≤ idx ∧ idx < (PWM_MAX_TIMESLOTS : Int) ∧ old ≠ middle
  | Access.table_read idx => 0 ≤ idx ∧ idx < (timeslot_table.length : Int)

/-! ## Fade convergence -/

/-- The fields of a channel record are within their C types: `brightness`,
`remainder` and `target_brightness` are bytes, `speed` is a 16-bit word. -/
def Channel.in_range (c : Channel) : Prop :=
  c.brightness < 256 ∧ c.remainder < 256 ∧ c.target_brightness < 256 ∧ c.speed < 65536

instance (c : Channel) : Decidable c.in_range := by
  unfold Channel.in_range; infer_instance

/-- A bound on the number of `do_fading` calls a channel still needs: the
distance of `brightness:remainder` to the target in units of 1/256 level, or,
for a speed above 0xFF00 (which moves the remainder the other way by
`65536 - speed` per call), the room left for the remainder. -/
def fade_variant (c : Channel) : Nat :=
  if c.brightness < c.target_brightness then
    if c.speed ≤ 65280 then c.target_brightness * 256 - (c.brightness * 256 + c.remainder)
    else c.remainder + 1
  else if c.brightness > c.target_brightness then
    if c.speed ≤ 65280 then c.brightness * 256 + c.remainder
    else 256 - c.remainder
  else 0

/-! ## Lemmas -/

theorem LOW_eq (x : Nat) : LOW x = x % 256 := by
  unfold LOW
  have h : (0xff : Nat) = 2 ^ 8 - 1 := by norm_num
  rw [Nat.and_comm, h, Nat.and_pow_two_sub_one_eq_mod]
  norm_num

theorem HIGH_eq (x : Nat) : HIGH x = x / 256 % 256 := by
  unfold HIGH
  apply Nat.eq_of_testBit_eq
  intro i
  have h256 : (256 : Nat) = 2 ^ 8 := by norm_num
  rw [h256, Nat.testBit_mod_two_pow, Nat.testBit_mod_two_pow, Nat.testBit_shiftRight,
    Nat.testBit_and, ← Nat.shiftRight_eq_div_pow, Nat.testBit_shiftRight]
  by_cases hi : i < 8
  · have h : Nat.testBit 65280 (8 + i) = true := by
      interval_cases i <;> decide
    simp [hi, h]
  · simp [hi]

/-! ## Scheduler lemmas -/

theorem range4 : List.range 4 = [0,1,2,3] := by decide
theorem range3 : List.range 3 = [0,1,2] := by decide
theorem range2 : List.range 2 = [0,1] := by decide
theorem range1 : List.range 1 = [0] := by decide

theorem filter_band_pos (lo hi a : Nat) (l : List Nat) (h : lo ≤ a ∧ a ≤ hi) :
    List.filter (fun b => decide (lo ≤ b ∧ b ≤ hi)) (a :: l)
      = a :: List.filter (fun b => decide (lo ≤ b ∧ b ≤ hi)) l := by
  simp [List.filter_cons, h]

theorem filter_band_neg (lo hi a : Nat) (l : List Nat) (h : ¬ (lo ≤ a ∧ a ≤ hi)) :
    List.filter (fun b => decide (lo ≤ b ∧ b ≤ hi)) (a :: l)
      = List.filter (fun b => decide (lo ≤ b ∧ b ≤ hi)) l := by
  simp [List.filter_cons, h]

theorem filter_upto_pos (b : Nat) (c : Channel) (l : List Channel)
    (h : 1 ≤ c.brightness ∧ c.brightness ≤ b) :
    List.filter (fun c => decide (1 ≤ c.brightness ∧ c.brightness ≤ b)) (c :: l)
      = c :: List.filter (fun c => decide (1 ≤ c.brightness ∧ c.brightness ≤ b)) l := by
  simp [List.filter_cons, h]

theorem filter_upto_neg (b : Nat) (c : Channel) (l : List Channel)
    (h : ¬ (1 ≤ c.brightness ∧ c.brightness ≤ b)) :
    List.filter (fun c => decide (1 ≤ c.brightness ∧ c.brightness ≤ b)) (c :: l)
      = List.filter (fun c => decide (1 ≤ c.brightness ∧ c.brightness ≤ b)) l := by
  simp [List.filter_cons, h]

theorem dedup_one (a : Nat) : [a].dedup = [a] := by simp

theorem dedup_two_lt (a b : Nat) (h : a < b) : [a, b].dedup = [a, b] := by
  rw [List.dedup_cons_of_not_mem (by simp; omega)]; simp

theorem dedup_two_eq (a b : Nat) (h : a = b) : [a, b].dedup = [b] := by
  subst h; simp

theorem dedup_three_lt_lt (a b c : Nat) (h : a < b) (h2 : b < c) : [a, b, c].dedup = [a, b, c] := by
  rw [List.dedup_cons_of_not_mem (by simp; omega), dedup_two_lt b c h2]

theorem dedup_three_eq_lt (a b c : Nat) (h : a = b) (h2 : b < c) : [a, b, c].dedup = [b, c] := by
  subst h; rw [List.dedup_cons_of_mem (by simp), dedup_two_lt a c h2]

theorem dedup_three_lt_eq (a b c : Nat) (h : a < b) (h2 : b = c) : [a, b, c].dedup = [a, c] := by
  subst h2; rw [List.dedup_cons_of_not_mem (by simp; omega), dedup_two_eq b b rfl]

theorem dedup_three_eq_eq (a b c : Nat) (h : a = b) (h2 : b = c) : [a, b, c].dedup = [c] := by
  subst h; subst h2; simp

theorem class3 (b : Nat) : (b = 0 ∨ 255 ≤ b) ∨ (1 ≤ b ∧ b ≤ 180) ∨ (181 ≤ b ∧ b ≤ 254) := by omega

set_option maxHeartbeats 4000000 in
theorem walk_sorted (x y z : Channel) (slots : Nat → Slot)
    (hxy : x.brightness ≤ y.brightness) (hyz : y.brightness ≤ z.brightness) :
    (List.range (walk_finish ([x, y, z].foldl walk_channel (walk_init slots))).j).map
        (walk_finish ([x, y, z].foldl walk_channel (walk_init slots))).slots
      = (distinct_levels [x, y, z] 1 180).map (slot_for [x, y, z]) ++ [middle]
          ++ (distinct_levels [x, y, z] 181 254).map (slot_for [x, y, z]) := by
  rcases class3 x.brightness with hx | hx | hx <;>
  rcases class3 y.brightness with hy | hy | hy <;>
  rcases class3 z.brightness with hz | hz | hz <;>
  rcases Nat.lt_or_eq_of_le hxy with h1 | h1 <;>
  rcases Nat.lt_or_eq_of_le hyz with h2 | h2 <;>
  first
  | (exfalso; omega)
  | (simp (disch := omega) only [walk_finish, walk_channel, walk_init, insert_middle, List.foldl_cons, List.foldl_nil, 
     if_pos, if_neg, Nat.reduceAdd, Nat.reduceMod, Nat.reduceSub, range4, range3, range2, range1, List.map_cons, List.map_nil, write,
     Nat.reduceEqDiff, if_true, if_false, OfNat.ofNat_ne_zero, OfNat.zero_ne_ofNat, OfNat.ofNat_ne_one, OfNat.one_ne_ofNat,
     one_ne_zero, zero_ne_one,
      distinct_levels, levels, 
      filter_band_pos, filter_band_neg, List.filter_nil, filter_upto_neg, filter_upto_pos,
      dedup_one, dedup_two_lt, dedup_two_eq, dedup_three_lt_lt, dedup_three_lt_eq, dedup_three_eq_lt, dedup_three_eq_eq, List.dedup_nil,
      slot_for, mask_upto, List.foldl_cons, List.foldl_nil, List.cons_append, List.nil_append] <;>
      (try simp only [h1, h2]))

theorem sort_channels_eq (chs : Channels) :
    sort_channels chs = sort_swap chs (sort_swap chs (sort_swap chs [0, 1, 2] 0 1) 0 2) 1 2 := by
  have r1 : List.range' 1 2 = [1, 2] := by decide
  have r2 : List.range' 2 1 = [2] := by decide
  have r3 : List.range' 3 0 = [] := by decide
  simp only [sort_channels, PWM_CHANNELS, range3, List.foldl_cons, List.foldl_nil, Nat.reduceAdd,
    Nat.reduceSub, r1, r2, r3]

theorem build_slots_eq (chs : Channels) (slots : Nat → Slot) :
    build_slots chs slots
      = walk_finish (walk_channel (walk_channel (walk_channel (walk_init slots)
          (chs.get ((sort_channels chs).getD 0 0))) (chs.get ((sort_channels chs).getD 1 0)))
          (chs.get ((sort_channels chs).getD 2 0))) := by
  simp only [build_slots, PWM_CHANNELS, range3, List.foldl_cons, List.foldl_nil, walk_step]

theorem sort_swap_01 (chs : Channels) (a b c : Nat) :
    sort_swap chs [a, b, c] 0 1
      = if (chs.get b).brightness < (chs.get a).brightness then [b, a, c] else [a, b, c] := rfl

theorem sort_swap_02 (chs : Channels) (a b c : Nat) :
    sort_swap chs [a, b, c] 0 2
      = if (chs.get c).brightness < (chs.get a).brightness then [c, b, a] else [a, b, c] := rfl

theorem sort_swap_12 (chs : Channels) (a b c : Nat) :
    sort_swap chs [a, b, c] 1 2
      = if (chs.get c).brightness < (chs.get b).brightness then [a, c, b] else [a, b, c] := rfl

theorem perm3_cases (c0 c1 c2 : Channel) :
    List.Perm [c0, c1, c2] [c0, c1, c2] ∧ List.Perm [c1, c0, c2] [c0, c1, c2] ∧
    List.Perm [c0, c2, c1] [c0, c1, c2] ∧ List.Perm [c2, c1, c0] [c0, c1, c2] ∧
    List.Perm [c1, c2, c0] [c0, c1, c2] ∧ List.Perm [c2, c0, c1] [c0, c1, c2] := by
  have s01 : List.Perm [c1, c0, c2] [c0, c1, c2] := List.Perm.swap c0 c1 [c2]
  have s12 : List.Perm [c0, c2, c1] [c0, c1, c2] := (List.Perm.swap c1 c2 []).cons c0
  have a : List.Perm [c1, c2, c0] [c1, c0, c2] := (List.Perm.swap c0 c2 []).cons c1
  have b : List.Perm [c2, c0, c1] [c0, c2, c1] := List.Perm.swap c0 c2 [c1]
  have c : List.Perm [c2, c1, c0] [c1, c2, c0] := List.Perm.swap c1 c2 [c0]
  exact ⟨List.Perm.refl _, s01, s12, (c.trans a).trans s01, a.trans s01, b.trans s12⟩

/-- The sorting loops leave a permutation of the channels in ascending order of brightness. -/
theorem sort_channels_sorted (chs : Channels) :
    ∃ x y z : Channel, List.Perm [x, y, z] chs.toList ∧
      x.brightness ≤ y.brightness ∧ y.brightness ≤ z.brightness ∧
      ∀ slots, build_slots chs slots
        = walk_finish ([x, y, z].foldl walk_channel (walk_init slots)) := by
  obtain ⟨c0, c1, c2⟩ := chs
  obtain ⟨p1, p2, p3, p4, p5, p6⟩ := perm3_cases c0 c1 c2
  simp only [build_slots_eq, sort_channels_eq, Channels.toList, List.foldl_cons, List.foldl_nil]
  rw [sort_swap_01]
  split <;> rw [sort_swap_02] <;> split <;> rw [sort_swap_12] <;> split <;>
    rename_i h1 h2 h3 <;>
    simp only [Channels.get] at h1 h2 h3 <;>
    refine ⟨_, _, _, ?_, ?_, ?_, fun _ => rfl⟩ <;>
    simp only [List.getD_cons_zero, List.getD_cons_succ, Channels.get] <;>
    first | assumption | omega

theorem mask_upto_perm {cs cs' : List Channel} (p : List.Perm cs cs') (b : Nat) :
    mask_upto cs b = mask_upto cs' b := by
  unfold mask_upto
  haveI : RightCommutative (fun a m : Nat => a ||| m) :=
    ⟨fun a b c => by simp only [Nat.lor_assoc, Nat.lor_comm b c]⟩
  exact List.Perm.foldl_eq ((p.filter _).map _) 0

theorem slot_for_perm {cs cs' : List Channel} (p : List.Perm cs cs') :
    slot_for cs = slot_for cs' := by
  funext b
  simp only [slot_for, mask_upto_perm p b]

theorem mem_distinct_levels (cs : List Channel) (lo hi b : Nat) :
    b ∈ distinct_levels cs lo hi ↔ b ∈ levels cs ∧ lo ≤ b ∧ b ≤ hi := by
  simp [distinct_levels, List.mem_filter]

theorem mem_present_levels (cs : List Channel) (lo hi b : Nat) :
    b ∈ present_levels cs lo hi ↔ b ∈ levels cs ∧ lo ≤ b ∧ b ≤ hi := by
  simp only [present_levels, List.mem_filter, List.mem_range'_1, decide_eq_true_eq]
  constructor
  · rintro ⟨⟨h1, h2⟩, h3⟩; exact ⟨h3, h1, by omega⟩
  · rintro ⟨h3, h1, h2⟩; exact ⟨⟨h1, by omega⟩, h3⟩

theorem present_levels_sorted (cs : List Channel) (lo hi : Nat) :
    (present_levels cs lo hi).Sorted (· < ·) :=
  (List.pairwise_lt_range' lo (hi + 1 - lo)).filter _

theorem distinct_levels_sorted (x y z : Channel) (lo hi : Nat)
    (hxy : x.brightness ≤ y.brightness) (hyz : y.brightness ≤ z.brightness) :
    (distinct_levels [x, y, z] lo hi).Sorted (· < ·) := by
  have h0 : (levels [x, y, z]).Sorted (· ≤ ·) := by
    simp [levels, List.Sorted]; omega
  have h1 : ((levels [x, y, z]).filter (fun b => lo ≤ b ∧ b ≤ hi)).Sorted (· ≤ ·) := h0.filter _
  have h2 : (distinct_levels [x, y, z] lo hi).Sorted (· ≤ ·) :=
    List.Pairwise.sublist (List.dedup_sublist _) h1
  exact h2.lt_of_le (List.nodup_dedup _)

theorem distinct_levels_eq_present {x y z : Channel} {cs : List Channel} (lo hi : Nat)
    (p : List.Perm [x, y, z] cs)
    (hxy : x.brightness ≤ y.brightness) (hyz : y.brightness ≤ z.brightness) :
    distinct_levels [x, y, z] lo hi = present_levels cs lo hi := by
  have s1 := distinct_levels_sorted x y z lo hi hxy hyz
  have s2 := present_levels_sorted cs lo hi
  refine List.eq_of_perm_of_sorted ?_ s1 s2
  rw [List.perm_ext_iff_of_nodup s1.nodup s2.nodup]
  intro b
  rw [mem_distinct_levels, mem_present_levels]
  have : b ∈ levels [x, y, z] ↔ b ∈ levels cs := (p.map _).mem_iff
  rw [this]

/-- The schedule built by `update_pwm_timeslots`: one slot per distinct level
in `1..180` in ascending order, the middle interrupt, one slot per distinct
level in `181..254` in ascending order. -/
theorem schedule_update (chs : Channels) (pwm : Timeslots) :
    schedule (update_pwm_timeslots chs pwm)
      = (present_levels chs.toList 1 180).map (slot_for chs.toList) ++ [middle]
          ++ (present_levels chs.toList 181 254).map (slot_for chs.toList) := by
  obtain ⟨x, y, z, p, hxy, hyz, hb⟩ := sort_channels_sorted chs
  simp only [schedule, update_pwm_timeslots, hb]
  rw [walk_sorted x y z pwm.slots hxy hyz, slot_for_perm p,
    distinct_levels_eq_present 1 180 p hxy hyz, distinct_levels_eq_present 181 254 p hxy hyz]

/-! ## Gamma table lemmas -/

set_option maxRecDepth 100000 in
theorem table_length : timeslot_table.length = 254 := by decide

set_option maxRecDepth 100000 in
theorem table_bound : ∀ i, i < 254 → 2 ≤ pgm_read_word i ∧ pgm_read_word i < 64000 := by
  unfold pgm_read_word; decide

set_option maxRecDepth 100000 in
theorem table_step_lo : ∀ i, i < 179 → pgm_read_word i < pgm_read_word (i + 1) := by
  unfold pgm_read_word; decide

set_option maxRecDepth 100000 in
theorem table_step_hi : ∀ i, i < 73 → pgm_read_word (180 + i) < pgm_read_word (180 + i + 1) := by
  unfold pgm_read_word; decide

set_option maxRecDepth 1000000 in
set_option maxHeartbeats 4000000 in
theorem table_nodup : timeslot_table.Nodup := by decide

theorem table_mono_lo (i j : Nat) (hij : i < j) (hj : j < 180) :
    pgm_read_word i < pgm_read_word j := by
  induction j with
  | zero => omega
  | succ j ih =>
    rcases Nat.lt_or_eq_of_le (Nat.lt_succ_iff.mp hij) with h | h
    · exact lt_trans (ih h (by omega)) (table_step_lo j (by omega))
    · subst h; exact table_step_lo i (by omega)

theorem table_mono_hi (i j : Nat) (hi : 180 ≤ i) (hij : i < j) (hj : j < 254) :
    pgm_read_word i < pgm_read_word j := by
  induction j with
  | zero => omega
  | succ j ih =>
    have hs : pgm_read_word j < pgm_read_word (j + 1) := by
      have := table_step_hi (j - 180) (by omega)
      rwa [show 180 + (j - 180) = j by omega] at this
    rcases Nat.lt_or_eq_of_le (Nat.lt_succ_iff.mp hij) with h | h
    · exact lt_trans (ih h (by omega)) hs
    · subst h; exact hs

theorem table_inj (i j : Nat) (hi : i < 254) (hj : j < 254)
    (h : pgm_read_word i = pgm_read_word j) : i = j := by
  have hi' : i < timeslot_table.length := by rw [table_length]; exact hi
  have hj' : j < timeslot_table.length := by rw [table_length]; exact hj
  unfold pgm_read_word at h
  rw [List.getD_eq_getElem _ _ hi', List.getD_eq_getElem _ _ hj'] at h
  exact (table_nodup.getElem_inj_iff).mp h

/-! ## Scheduler theorems -/

theorem schedule_length (pwm : Timeslots) : (schedule pwm).length = pwm.count := by
  simp [schedule]

theorem present_levels_disjoint (cs : List Channel) :
    List.Disjoint (present_levels cs 1 180) (present_levels cs 181 254) := by
  intro b h1 h2
  rw [mem_present_levels] at h1 h2
  omega

theorem distinct_levels_perm_present (cs : List Channel) :
    List.Perm (distinct_levels cs 1 254)
      (present_levels cs 1 180 ++ present_levels cs 181 254) := by
  have n1 : (distinct_levels cs 1 254).Nodup := List.nodup_dedup _
  have n2 : (present_levels cs 1 180 ++ present_levels cs 181 254).Nodup :=
    (present_levels_sorted cs 1 180).nodup.append (present_levels_sorted cs 181 254).nodup
      (present_levels_disjoint cs)
  rw [List.perm_ext_iff_of_nodup n1 n2]
  intro b
  rw [mem_distinct_levels, List.mem_append, mem_present_levels, mem_present_levels]
  constructor
  · rintro ⟨h, h1, h2⟩
    by_cases hb : b ≤ 180
    · exact Or.inl ⟨h, h1, hb⟩
    · exact Or.inr ⟨h, by omega, h2⟩
  · rintro (⟨h, h1, h2⟩ | ⟨h, h1, h2⟩)
    · exact ⟨h, h1, by omega⟩
    · exact ⟨h, by omega, h2⟩

theorem count_update (chs : Channels) (pwm : Timeslots) :
    (update_pwm_timeslots chs pwm).count = 1 + (distinct_levels chs.toList 1 254).length := by
  rw [← schedule_length, schedule_update, (distinct_levels_perm_present chs.toList).length_eq]
  simp only [List.length_append, List.length_map, List.length_singleton]
  omega

theorem distinct_levels_length_le (chs : Channels) (lo hi : Nat) :
    (distinct_levels chs.toList lo hi).length ≤ 3 := by
  have h1 := (List.dedup_sublist ((levels chs.toList).filter (fun b => lo ≤ b ∧ b ≤ hi))).length_le
  have h2 := List.length_filter_le (fun b => decide (lo ≤ b ∧ b ≤ hi)) (levels chs.toList)
  have h3 : (levels chs.toList).length = 3 := rfl
  unfold distinct_levels
  omega

/-- C3: the published `count` is one (the middle interrupt) plus the number of
distinct brightness values in `1..254` among the three channels, hence between
1 and 4; at brightness (0,0,0) and (255,0,0) the schedule is the middle
interrupt alone. -/
theorem C3_count_distinct_levels (chs : Channels) (pwm : Timeslots) :
    (update_pwm_timeslots chs pwm).count = 1 + (distinct_levels chs.toList 1 254).length ∧
    1 ≤ (update_pwm_timeslots chs pwm).count ∧ (update_pwm_timeslots chs pwm).count ≤ 4 ∧
    ((update_pwm_timeslots (channels_at 0 0 0) pwm).count = 1 ∧
      schedule (update_pwm_timeslots (channels_at 0 0 0) pwm) = [middle]) ∧
    ((update_pwm_timeslots (channels_at 255 0 0) pwm).count = 1 ∧
      schedule (update_pwm_timeslots (channels_at 255 0 0) pwm) = [middle]) ∧
    middle = { mask := 0xFF, top := 65000 } := by
  have h := count_update chs pwm
  have hle := distinct_levels_length_le chs 1 254
  refine ⟨h, by omega, by omega, ⟨?_, ?_⟩, ⟨?_, ?_⟩, rfl⟩
  · rw [count_update]; decide
  · rw [schedule_update]; decide
  · rw [count_update]; decide
  · rw [schedule_update]; decide

theorem calc_initial_bitmask_eq (chs : Channels) :
    calc_initial_bitmask chs =
      (fun b : Nat => if chs.c2.brightness > 0 then (b &&& (255 - chs.c2.mask % 256)) % 256 else b)
      ((fun b : Nat => if chs.c1.brightness > 0 then (b &&& (255 - chs.c1.mask % 256)) % 256 else b)
      ((fun b : Nat => if chs.c0.brightness > 0 then (b &&& (255 - chs.c0.mask % 256)) % 256 else b)
        0xff)) := by
  simp only [calc_initial_bitmask, PWM_CHANNELS, range3, List.foldl_cons, List.foldl_nil,
    Channels.get]

/-- C4: with the channel masks of `init_pwm` (`mask(i) = 1 << i`), after
`update_pwm_timeslots` bit `i` of `initial_bitmask` is cleared exactly when
`brightness(i) > 0` for `i = 0, 1, 2`, bits 3..7 are set, and the rebuild
leaves `index = 0` and `next_bitmask = 0`. -/
theorem C4_initial_bitmask (chs : Channels) (pwm : Timeslots)
    (hm : chs.c0.mask = 1 <<< 0 ∧ chs.c1.mask = 1 <<< 1 ∧ chs.c2.mask = 1 <<< 2) :
    (∀ i, i < 3 → ((update_pwm_timeslots chs pwm).initial_bitmask.testBit i = false
        ↔ (chs.get i).brightness > 0)) ∧
    (∀ i, 3 ≤ i → i < 8 → (update_pwm_timeslots chs pwm).initial_bitmask.testBit i = true) ∧
    (update_pwm_timeslots chs pwm).index = 0 ∧
    (update_pwm_timeslots chs pwm).next_bitmask = 0 := by
  obtain ⟨h0, h1, h2⟩ := hm
  simp only [update_pwm_timeslots, calc_initial_bitmask_eq, h0, h1, h2]
  refine ⟨?_, ?_, trivial, trivial⟩
  · intro i hi
    by_cases b0 : chs.c0.brightness > 0 <;> by_cases b1 : chs.c1.brightness > 0 <;>
      by_cases b2 : chs.c2.brightness > 0 <;>
      simp only [b0, b1, b2, if_true, if_false] <;>
      interval_cases i <;> simp [Channels.get, b0, b1, b2] <;> decide
  · intro i h3 h8
    by_cases b0 : chs.c0.brightness > 0 <;> by_cases b1 : chs.c1.brightness > 0 <;>
      by_cases b2 : chs.c2.brightness > 0 <;>
      simp only [b0, b1, b2, if_true, if_false] <;>
      interval_cases i <;> decide

/-- C4 at the channel records of `init_pwm` (brightness 8, 14, 15). -/
theorem C4_initial_bitmask_witness :
    (init_channels.c0.mask = 1 <<< 0 ∧ init_channels.c1.mask = 1 <<< 1 ∧
      init_channels.c2.mask = 1 <<< 2) ∧
    ((update_pwm_timeslots init_channels pwm_zero).initial_bitmask.testBit 0 = false
        ↔ (init_channels.get 0).brightness > 0) ∧
    (update_pwm_timeslots init_channels pwm_zero).initial_bitmask.testBit 3 = true ∧
    (update_pwm_timeslots init_channels pwm_zero).index = 0 ∧
    (update_pwm_timeslots init_channels pwm_zero).next_bitmask = 0 :=
  ⟨⟨rfl, rfl, rfl⟩,
    (C4_initial_bitmask init_channels pwm_zero ⟨rfl, rfl, rfl⟩).1 0 (by decide),
    (C4_initial_bitmask init_channels pwm_zero ⟨rfl, rfl, rfl⟩).2.1 3 (by decide) (by decide),
    (C4_initial_bitmask init_channels pwm_zero ⟨rfl, rfl, rfl⟩).2.2⟩

theorem middle_top_ne (b : Nat) (hb : 1 ≤ b ∧ b ≤ 254) : middle.top ≠ pgm_read_word (b - 1) := by
  have := (table_bound (b - 1) (by omega)).2
  simp only [middle]
  omega

theorem filter_top_map (cs : List Channel) (l : List Nat) (b : Nat) (hb : 1 ≤ b ∧ b ≤ 254)
    (hl : ∀ a ∈ l, 1 ≤ a ∧ a ≤ 254) (hn : l.Nodup) :
    (l.map (slot_for cs)).filter (fun s => s.top = pgm_read_word (b - 1))
      = if b ∈ l then [slot_for cs b] else [] := by
  rw [List.filter_map]
  have hc : l.filter ((fun s : Slot => decide (s.top = pgm_read_word (b - 1))) ∘ slot_for cs)
      = l.filter (fun a => a = b) := by
    apply List.filter_congr
    intro a ha
    have h1 := hl a ha
    simp only [Function.comp, slot_for, decide_eq_decide]
    constructor
    · intro h
      have := table_inj (a - 1) (b - 1) (by omega) (by omega) h
      omega
    · intro h; rw [h]
  rw [hc, List.filter_eq]
  by_cases hm : b ∈ l
  · rw [List.count_eq_one_of_mem hn hm, if_pos hm]; rfl
  · rw [List.count_eq_zero_of_not_mem hm, if_neg hm]; rfl

theorem mem_levels_toList (chs : Channels) (b : Nat) :
    b ∈ levels chs.toList ↔ ∃ i, i < 3 ∧ (chs.get i).brightness = b := by
  simp only [levels, Channels.toList, List.map_cons, List.map_nil, List.mem_cons,
    List.mem_singleton, List.not_mem_nil, or_false]
  constructor
  · rintro (h | h | h)
    · exact ⟨0, by omega, h.symm⟩
    · exact ⟨1, by omega, h.symm⟩
    · exact ⟨2, by omega, h.symm⟩
  · rintro ⟨i, hi, h⟩
    interval_cases i
    · exact Or.inl h.symm
    · exact Or.inr (Or.inl h.symm)
    · exact Or.inr (Or.inr h.symm)

theorem foldl_lor_absorb (l : List Nat) (a m : Nat) (h : m ∈ l ∨ a ||| m = a) :
    l.foldl (fun a m => a ||| m) a ||| m = l.foldl (fun a m => a ||| m) a := by
  induction l generalizing a with
  | nil =>
    rcases h with h | h
    · simp at h
    · simpa using h
  | cons x l ih =>
    simp only [List.foldl_cons]
    apply ih
    rcases h with h | h
    · rcases List.mem_cons.mp h with h | h
      · right; rw [h, Nat.lor_assoc, Nat.or_self]
      · left; exact h
    · right; rw [Nat.lor_assoc, Nat.lor_comm x m, ← Nat.lor_assoc, h]

theorem mask_upto_absorb (cs : List Channel) (b : Nat) (c : Channel) (hc : c ∈ cs)
    (h : 1 ≤ c.brightness ∧ c.brightness ≤ b) :
    mask_upto cs b ||| c.mask = mask_upto cs b := by
  unfold mask_upto
  apply foldl_lor_absorb
  left
  exact List.mem_map.mpr ⟨c, List.mem_filter.mpr ⟨hc, by simpa using h⟩, rfl⟩

theorem get_mem_toList (chs : Channels) (i : Nat) : chs.get i ∈ chs.toList := by
  rcases i with _ | _ | i <;> simp [Channels.get, Channels.toList]

/-- C5: for every level `b` in `1..254` that is the brightness of at least one
channel, the schedule holds exactly one slot with `top = timeslot_table[b-1]`,
and its mask is the bitwise OR of the masks of exactly the channels with
brightness in `1..b` (`mask_upto`); so channels of equal brightness share one
slot whose mask covers each of them. -/
theorem C5_one_slot_per_level (chs : Channels) (pwm : Timeslots) (b i : Nat)
    (hb : 1 ≤ b ∧ b ≤ 254) (hi : i < 3) (hc : (chs.get i).brightness = b) :
    (schedule (update_pwm_timeslots chs pwm)).filter
        (fun s => s.top = pgm_read_word (b - 1))
      = [{ mask := mask_upto chs.toList b, top := pgm_read_word (b - 1) }] ∧
    mask_upto chs.toList b ||| (chs.get i).mask = mask_upto chs.toList b := by
  have hmem : b ∈ levels chs.toList := (mem_levels_toList chs b).2 ⟨i, hi, hc⟩
  constructor
  · rw [schedule_update, List.filter_append, List.filter_append,
      filter_top_map _ _ b hb (fun a ha => by rw [mem_present_levels] at ha; omega)
        (present_levels_sorted _ 1 180).nodup,
      filter_top_map _ _ b hb (fun a ha => by rw [mem_present_levels] at ha; omega)
        (present_levels_sorted _ 181 254).nodup]
    have hmid : List.filter (fun s => decide (s.top = pgm_read_word (b - 1))) [middle] = [] := by
      simp [List.filter_cons, (middle_top_ne b hb)]
    rw [hmid]
    by_cases h180 : b ≤ 180
    · rw [if_pos ((mem_present_levels _ 1 180 b).2 ⟨hmem, hb.1, h180⟩),
        if_neg (fun h => by rw [mem_present_levels] at h; omega)]
      rfl
    · rw [if_neg (fun h => by rw [mem_present_levels] at h; omega),
        if_pos ((mem_present_levels _ 181 254 b).2 ⟨hmem, by omega, hb.2⟩)]
      rfl
  · exact mask_upto_absorb _ _ _ (get_mem_toList chs i) (by omega)

/-- C5 at brightness (100, 100, 50), level 100, channel 1: one slot, mask 7. -/
theorem C5_one_slot_per_level_witness :
    (1 ≤ 100 ∧ 100 ≤ 254) ∧ ((channels_at 100 100 50).get 1).brightness = 100 ∧
    (schedule (update_pwm_timeslots (channels_at 100 100 50) pwm_zero)).filter
        (fun s => s.top = pgm_read_word (100 - 1))
      = [{ mask := mask_upto (channels_at 100 100 50).toList 100,
           top := pgm_read_word (100 - 1) }] ∧
    mask_upto (channels_at 100 100 50).toList 100 = 7 :=
  ⟨by decide, rfl,
    (C5_one_slot_per_level (channels_at 100 100 50) pwm_zero 100 1 (by decide) (by decide)
      rfl).1, by decide⟩

theorem slot_top_lt (cs : List Channel) (lo hi : Nat) (hhi : hi ≤ 254)
    (s : Slot) (hs : s ∈ (present_levels cs lo hi).map (slot_for cs)) : s.top < 64000 := by
  obtain ⟨b, hb, rfl⟩ := List.mem_map.mp hs
  rw [mem_present_levels] at hb
  exact (table_bound (b - 1) (by omega)).2

theorem filter_middle_map (cs : List Channel) (lo hi : Nat) (hhi : hi ≤ 254) :
    ((present_levels cs lo hi).map (slot_for cs)).filter (fun s => s.top = 65000) = [] := by
  rw [List.filter_eq_nil_iff]
  intro s hs
  have := slot_top_lt cs lo hi hhi s hs
  simp only [decide_eq_true_eq]
  omega

theorem present_hi_eq_nil_iff (cs : List Channel) :
    present_levels cs 181 254 = [] ↔ ¬ crosses_middle cs := by
  rw [List.eq_nil_iff_forall_not_mem]
  simp only [mem_present_levels, crosses_middle, levels, List.mem_map]
  constructor
  · rintro h ⟨c, hc, h1, h2⟩
    exact h c.brightness ⟨⟨c, hc, rfl⟩, h1, h2⟩
  · rintro h b ⟨⟨c, hc, rfl⟩, h1, h2⟩
    exact h ⟨c, hc, h1, h2⟩

/-- C6 (amended): in every schedule exactly one slot has `top = 65000`, the
middle interrupt; before it stand the slots of the levels `1..180` and after
it the slots of the levels `181..254`, whose table entries are the post-wrap
ones; it is the last slot exactly when no channel has a brightness in
`181..254`, in particular when all channels are below 181. -/
theorem C6_middle_position (chs : Channels) (pwm : Timeslots) :
    (schedule (update_pwm_timeslots chs pwm)).filter (fun s => s.top = 65000) = [middle] ∧
    schedule (update_pwm_timeslots chs pwm)
      = (present_levels chs.toList 1 180).map (slot_for chs.toList)
          ++ middle :: (present_levels chs.toList 181 254).map (slot_for chs.toList) ∧
    ((schedule (update_pwm_timeslots chs pwm)).getLast? = some middle
      ↔ ¬ crosses_middle chs.toList) := by
  refine ⟨?_, ?_, ?_⟩
  · rw [schedule_update, List.filter_append, List.filter_append,
      filter_middle_map _ 1 180 (by omega),
      filter_middle_map _ 181 254 (by omega)]
    rfl
  · rw [schedule_update]; simp
  · rw [schedule_update, ← present_hi_eq_nil_iff]
    constructor
    · intro h
      by_contra hne
      obtain ⟨b, hb⟩ := List.exists_mem_of_ne_nil _ hne
      have hne' : (present_levels chs.toList 181 254).map (slot_for chs.toList) ≠ [] := by
        simpa using hne
      rw [List.getLast?_append_of_ne_nil _ hne'] at h
      have hmem := List.mem_of_getLast?_eq_some h
      have := slot_top_lt _ 181 254 (by omega) _ hmem
      simp [middle] at this
    · intro h
      rw [h]
      simp

/-- C6 (as stated) fails at brightness (181, 0, 0): all channels are below
182, yet the slot of level 181 (`timeslot_table[180] = 489`) follows the
middle interrupt, which is therefore not the last slot. -/
theorem C6_counterexample :
    levels (channels_at 181 0 0).toList = [181, 0, 0] ∧
    schedule (update_pwm_timeslots (channels_at 181 0 0) pwm_zero)
      = [{ mask := 0xFF, top := 65000 }, { mask := 0x01, top := 489 }] ∧
    (schedule (update_pwm_timeslots (channels_at 181 0 0) pwm_zero)).getLast? ≠ some middle := by
  decide

/-- C7: the schedule splits at the middle interrupt `{65000, 0xFF}` into the
slots before and the slots after it; the tops before it are strictly
increasing, the tops after it are strictly increasing, and every one of them
is below the timer period 64000. -/
theorem C7_tops_increasing (chs : Channels) (pwm : Timeslots) :
    ∃ pre post : List Slot,
      schedule (update_pwm_timeslots chs pwm) = pre ++ middle :: post ∧
      middle = { mask := 0xFF, top := 65000 } ∧
      (pre.map Slot.top).Sorted (· < ·) ∧ (post.map Slot.top).Sorted (· < ·) ∧
      ∀ s ∈ pre ++ post, s.top < 64000 := by
  refine ⟨(present_levels chs.toList 1 180).map (slot_for chs.toList),
    (present_levels chs.toList 181 254).map (slot_for chs.toList), ?_, rfl, ?_, ?_, ?_⟩
  · rw [schedule_update]; simp
  · rw [List.map_map, List.Sorted, List.pairwise_map]
    refine List.Pairwise.imp_of_mem ?_ (present_levels_sorted chs.toList 1 180)
    intro a b ha hb hab
    rw [mem_present_levels] at ha hb
    exact table_mono_lo (a - 1) (b - 1) (by omega) (by omega)
  · rw [List.map_map, List.Sorted, List.pairwise_map]
    refine List.Pairwise.imp_of_mem ?_ (present_levels_sorted chs.toList 181 254)
    intro a b ha hb hab
    rw [mem_present_levels] at ha hb
    exact table_mono_hi (a - 1) (b - 1) (by omega) (by omega) (by omega)
  · intro s hs
    rcases List.mem_append.mp hs with h | h
    · exact slot_top_lt _ 1 180 (by omega) s h
    · exact slot_top_lt _ 181 254 (by omega) s h

/-- C8 (amended): the middle interrupt's 0xff is not ORed into later slots.
Every slot after the middle interrupt belongs to a level `b` in `181..254`
of some channel and carries `mask_upto b`, the OR of the masks of the
channels with brightness in `1..b`.  For brightness (50, 200, 0) with masks
(1, 2, 4): `count = 3`, slots `{timeslot_table[49], 0x01}`, `{65000, 0xFF}`,
`{timeslot_table[199], 0x03}`, and `initial_bitmask = 0xFC`. -/
theorem C8_masks_after_middle (chs : Channels) (pwm : Timeslots) :
    (∃ pre post : List Slot,
      schedule (update_pwm_timeslots chs pwm) = pre ++ middle :: post ∧
      (∀ s ∈ pre, s.top < 64000) ∧
      ∀ s ∈ post, ∃ b ∈ levels chs.toList, (181 ≤ b ∧ b ≤ 254) ∧
        s.top = pgm_read_word (b - 1) ∧ s.mask = mask_upto chs.toList b) ∧
    (update_pwm_timeslots (channels_at 50 200 0) pwm).count = 3 ∧
    schedule (update_pwm_timeslots (channels_at 50 200 0) pwm)
      = [{ mask := 0x01, top := pgm_read_word 49 }, { mask := 0xFF, top := 65000 },
         { mask := 0x03, top := pgm_read_word 199 }] ∧
    (update_pwm_timeslots (channels_at 50 200 0) pwm).initial_bitmask = 0xFC := by
  refine ⟨⟨(present_levels chs.toList 1 180).map (slot_for chs.toList),
    (present_levels chs.toList 181 254).map (slot_for chs.toList), ?_, ?_, ?_⟩, ?_, ?_, ?_⟩
  · rw [schedule_update]; simp
  · intro s hs
    exact slot_top_lt _ 1 180 (by omega) s hs
  · intro s hs
    obtain ⟨b, hb, rfl⟩ := List.mem_map.mp hs
    rw [mem_present_levels] at hb
    exact ⟨b, hb.1, hb.2, rfl, rfl⟩
  · rw [count_update]; decide
  · rw [schedule_update]; decide
  · show calc_initial_bitmask (channels_at 50 200 0) = 0xFC
    decide

/-- C8 (as stated) fails at brightness (50, 200, 0) with masks (1, 2, 4): the
slot after the middle interrupt has mask 0x03, not 0xFF. -/
theorem C8_counterexample :
    schedule (update_pwm_timeslots (channels_at 50 200 0) pwm_zero)
      ≠ [{ mask := 0x01, top := pgm_read_word 49 }, { mask := 0xFF, top := 65000 },
         { mask := 0xFF, top := pgm_read_word 199 }] ∧
    ((update_pwm_timeslots (channels_at 50 200 0) pwm_zero).slots 2).mask = 0x03 := by
  decide

/-! ## Fade lemmas -/

theorem do_fading_eq (chs : Channels) :
    do_fading chs = ⟨fade_channel chs.c0, fade_channel chs.c1, fade_channel chs.c2⟩ := rfl

theorem do_fading_get (chs : Channels) (i : Nat) :
    (do_fading chs).get i = fade_channel (chs.get i) := by
  rw [do_fading_eq]
  rcases i with _ | _ | i <;> rfl

theorem do_fading_iterate_get (n : Nat) (chs : Channels) (i : Nat) :
    (do_fading^[n] chs).get i = fade_channel^[n] (chs.get i) := by
  induction n generalizing chs with
  | zero => rfl
  | succ n ih => rw [Function.iterate_succ_apply, Function.iterate_succ_apply, ih, do_fading_get]

theorem fade_channel_target (c : Channel) :
    (fade_channel c).target_brightness = c.target_brightness := by
  simp only [fade_channel]
  split_ifs <;> rfl

theorem fade_channel_between (c : Channel) :
    min c.brightness c.target_brightness ≤ (fade_channel c).brightness ∧
      (fade_channel c).brightness ≤ max c.brightness c.target_brightness := by
  simp only [fade_channel]
  split_ifs <;> (try dsimp only) <;> omega

theorem fade_iterate_between (n : Nat) (c : Channel) :
    (fade_channel^[n] c).target_brightness = c.target_brightness ∧
      min c.brightness c.target_brightness ≤ (fade_channel^[n] c).brightness ∧
      (fade_channel^[n] c).brightness ≤ max c.brightness c.target_brightness := by
  induction n generalizing c with
  | zero => simp
  | succ n ih =>
    rw [Function.iterate_succ_apply]
    have h1 := ih (fade_channel c)
    have h2 := fade_channel_between c
    rw [fade_channel_target] at h1
    refine ⟨h1.1, ?_, ?_⟩ <;> omega

/-- C1: a single call of `do_fading` leaves every channel's brightness between
its old value and its target, and so does any number `n` of calls, during
which the target stays what it was: the brightness never overshoots. -/
theorem C1_fade_no_overshoot (chs : Channels) (i n : Nat) :
    (min (chs.get i).brightness (chs.get i).target_brightness
        ≤ ((do_fading chs).get i).brightness ∧
      ((do_fading chs).get i).brightness
        ≤ max (chs.get i).brightness (chs.get i).target_brightness) ∧
    ((do_fading^[n] chs).get i).target_brightness = (chs.get i).target_brightness ∧
    min (chs.get i).brightness (chs.get i).target_brightness
        ≤ ((do_fading^[n] chs).get i).brightness ∧
    ((do_fading^[n] chs).get i).brightness
        ≤ max (chs.get i).brightness (chs.get i).target_brightness := by
  rw [do_fading_get, do_fading_iterate_get]
  exact ⟨fade_channel_between _, fade_iterate_between n _⟩

theorem fade_channel_ref (c : Channel) : fade_ref c (fade_channel c) := by
  simp only [fade_ref, ref_clamps, ref_value, fade_channel, HIGH_eq, LOW_eq, Nat.shiftLeft_eq]
  split_ifs <;> (try dsimp only) <;> (try simp only [true_and, and_true, and_self])
    <;> omega

/-- C2: `do_fading` performs, on every channel, the reference step of the
spec (`fade_ref`, computed in integer arithmetic modulo 65536): clamp to the
target when the high byte of `v` wrapped or passed the target, else take the
high and low byte of `v`; no change at the target; target, speed and mask
untouched.  Scenario S5: from brightness 10, remainder 0, target 255, speed
0x0180 one call gives (11, 0x80) and two calls give (13, 0x00). -/
theorem C2_fade_matches_reference (chs : Channels) (i : Nat) :
    fade_ref (chs.get i) ((do_fading chs).get i) ∧
    ((do_fading ⟨s5_channel, s5_channel, s5_channel⟩).c0.brightness = 11 ∧
      (do_fading ⟨s5_channel, s5_channel, s5_channel⟩).c0.remainder = 0x80) ∧
    ((do_fading (do_fading ⟨s5_channel, s5_channel, s5_channel⟩)).c0.brightness = 13 ∧
      (do_fading (do_fading ⟨s5_channel, s5_channel, s5_channel⟩)).c0.remainder = 0x00) := by
  rw [do_fading_get]
  exact ⟨fade_channel_ref _, by decide, by decide⟩

/-! ## Dispatcher theorems -/

/-- C10: the command byte `'s'` appends exactly two bytes to the sink, the
high byte and then the low byte of the speed of channel 0, and changes
neither the channels nor the schedule nor any other state.  Scenario S6: from
targets (0,0,0) and speed 0x0100 the bytes `'4','4','4','>','s'` leave
`target(0) = 3`, `speed(0) = 0x0080` and emit exactly 0x00, 0x80. -/
theorem C10_speed_reply (s : State) :
    (SIG_UART_RECV s (Char.toNat 's')).uart
      = s.uart ++ [HIGH s.channels.c0.speed, LOW s.channels.c0.speed] ∧
    (SIG_UART_RECV s (Char.toNat 's')).channels = s.channels ∧
    (SIG_UART_RECV s (Char.toNat 's')).pwm = s.pwm ∧
    (SIG_UART_RECV s (Char.toNat 's')).flags = s.flags ∧
    (SIG_UART_RECV s (Char.toNat 's')).OCR1B = s.OCR1B ∧
    (SIG_UART_RECV s (Char.toNat 's')).PORTB = s.PORTB ∧
    (s6_state.channels.c0.target_brightness = 0 ∧ s6_state.channels.c0.speed = 0x0100 ∧
      (feed s6_state (['4', '4', '4', '>', 's'].map Char.toNat)).channels.c0.target_brightness
        = 3 ∧
      (feed s6_state (['4', '4', '4', '>', 's'].map Char.toNat)).channels.c0.speed = 0x0080 ∧
      (feed s6_state (['4', '4', '4', '>', 's'].map Char.toNat)).uart = [0x00, 0x80]) := by
  refine ⟨rfl, rfl, rfl, rfl, rfl, rfl, ?_⟩
  decide

/-! ## Fade duration theorems -/

theorem fade_up_step (c : Channel) (hr : c.remainder < 256)
    (h : c.brightness * 256 + c.remainder + c.speed < c.target_brightness * 256)
    (ht : c.target_brightness < 256) :
    (fade_channel c).target_brightness = c.target_brightness ∧
    (fade_channel c).speed = c.speed ∧
    (fade_channel c).remainder < 256 ∧
    (fade_channel c).brightness * 256 + (fade_channel c).remainder
      = c.brightness * 256 + c.remainder + c.speed := by
  simp only [fade_channel, HIGH_eq, LOW_eq, Nat.shiftLeft_eq]
  split_ifs <;> (try dsimp only) <;> omega

theorem fade_up_final (c : Channel) (hr : c.remainder < 256)
    (hlt : c.brightness < c.target_brightness)
    (hs : c.speed < 65536) (hw : c.remainder = 0 ∨ c.speed ≤ 65280)
    (h : c.target_brightness * 256 ≤ c.brightness * 256 + c.remainder + c.speed) :
    (fade_channel c).brightness = c.target_brightness := by
  simp only [fade_channel, HIGH_eq, LOW_eq, Nat.shiftLeft_eq]
  split_ifs
  · rfl
  · dsimp only; omega

theorem fade_down_step (c : Channel) (hr : c.remainder < 256) (hb : c.brightness < 256)
    (h : (c.target_brightness + 1) * 256 + c.speed ≤ c.brightness * 256 + c.remainder) :
    (fade_channel c).target_brightness = c.target_brightness ∧
    (fade_channel c).speed = c.speed ∧
    (fade_channel c).remainder < 256 ∧
    (fade_channel c).brightness < 256 ∧
    (fade_channel c).brightness * 256 + (fade_channel c).remainder + c.speed
      = c.brightness * 256 + c.remainder := by
  simp only [fade_channel, HIGH_eq, LOW_eq, Nat.shiftLeft_eq]
  split_ifs <;> (try dsimp only) <;> omega

theorem fade_down_final (c : Channel) (hr : c.remainder < 256)
    (hgt : c.target_brightness < c.brightness)
    (hs : c.speed ≤ 65280)
    (h : c.brightness * 256 + c.remainder < (c.target_brightness + 1) * 256 + c.speed) :
    (fade_channel c).brightness = c.target_brightness := by
  simp only [fade_channel, HIGH_eq, LOW_eq, Nat.shiftLeft_eq]
  split_ifs <;> (try dsimp only) <;> omega

theorem ceil_div_spec (a s : Nat) (hs : 0 < s) (ha : 0 < a) :
    1 ≤ ceil_div a s ∧ a ≤ ceil_div a s * s ∧ (ceil_div a s - 1) * s < a := by
  unfold ceil_div
  have h1 := Nat.div_add_mod (a + s - 1) s
  have h2 := Nat.mod_lt (a + s - 1) hs
  have h3 : s * ((a + s - 1) / s) = (a + s - 1) / s * s := Nat.mul_comm _ _
  have hq : 1 ≤ (a + s - 1) / s := by
    rw [Nat.le_div_iff_mul_le hs]; omega
  have h4 : ((a + s - 1) / s - 1) * s + s = (a + s - 1) / s * s := by
    rw [← Nat.succ_mul]; congr 1; omega
  refine ⟨hq, ?_, ?_⟩ <;> omega

theorem fade_up_invariant (c : Channel) (hr : c.remainder = 0)
    (ht : c.target_brightness < 256) (k : Nat)
    (hk : c.brightness * 256 + k * c.speed < c.target_brightness * 256) :
    (fade_channel^[k] c).target_brightness = c.target_brightness ∧
    (fade_channel^[k] c).speed = c.speed ∧
    (fade_channel^[k] c).remainder < 256 ∧
    (fade_channel^[k] c).brightness * 256 + (fade_channel^[k] c).remainder
      = c.brightness * 256 + k * c.speed := by
  induction k with
  | zero => simp [hr]
  | succ k ih =>
    have hmul : (k + 1) * c.speed = k * c.speed + c.speed := Nat.succ_mul k c.speed
    obtain ⟨i1, i2, i3, i4⟩ := ih (by omega)
    rw [Function.iterate_succ_apply']
    have := fade_up_step (fade_channel^[k] c) i3 (by rw [i1, i2]; omega) (by rw [i1]; exact ht)
    rw [i1, i2] at this
    refine ⟨this.1, this.2.1, this.2.2.1, ?_⟩
    rw [this.2.2.2]; omega

theorem fade_down_invariant (c : Channel) (hr : c.remainder = 0)
    (hb : c.brightness < 256) (k : Nat)
    (hk : (c.target_brightness + 1) * 256 + k * c.speed ≤ c.brightness * 256) :
    (fade_channel^[k] c).target_brightness = c.target_brightness ∧
    (fade_channel^[k] c).speed = c.speed ∧
    (fade_channel^[k] c).remainder < 256 ∧
    (fade_channel^[k] c).brightness < 256 ∧
    (fade_channel^[k] c).brightness * 256 + (fade_channel^[k] c).remainder + k * c.speed
      = c.brightness * 256 := by
  induction k with
  | zero => simp [hr, hb]
  | succ k ih =>
    have hmul : (k + 1) * c.speed = k * c.speed + c.speed := Nat.succ_mul k c.speed
    obtain ⟨i1, i2, i3, i4, i5⟩ := ih (by omega)
    rw [Function.iterate_succ_apply']
    have := fade_down_step (fade_channel^[k] c) i3 i4 (by rw [i1, i2]; omega)
    rw [i1, i2] at this
    refine ⟨this.1, this.2.1, this.2.2.1, this.2.2.2.1, ?_⟩
    omega

theorem fade_distance_up (c : Channel) (h : c.brightness < c.target_brightness) :
    fade_distance c = c.target_brightness - c.brightness := by
  unfold fade_distance; omega

theorem fade_distance_down (c : Channel) (h : c.target_brightness < c.brightness) :
    fade_distance c = c.brightness - c.target_brightness := by
  unfold fade_distance; omega

theorem fade_up_duration (c : Channel) (hr : c.remainder = 0)
    (hlt : c.brightness < c.target_brightness) (ht : c.target_brightness < 256)
    (hs1 : 0 < c.speed) (hs : c.speed < 65536) :
    first_at_target c (fade_duration c) := by
  have hd : fade_duration c = ceil_div ((c.target_brightness - c.brightness) * 256) c.speed := by
    unfold fade_duration; rw [fade_distance_up c hlt]
  obtain ⟨n1, n2, n3⟩ :=
    ceil_div_spec ((c.target_brightness - c.brightness) * 256) c.speed hs1 (by omega)
  rw [← hd] at n1 n2 n3
  have below : ∀ k, k < fade_duration c →
      c.brightness * 256 + k * c.speed < c.target_brightness * 256 := by
    intro k hk
    have : k * c.speed ≤ (fade_duration c - 1) * c.speed :=
      Nat.mul_le_mul_right _ (by omega)
    omega
  constructor
  · obtain ⟨i1, i2, i3, i4⟩ :=
      fade_up_invariant c hr ht (fade_duration c - 1) (below _ (by omega))
    have hsucc : fade_duration c = (fade_duration c - 1) + 1 := by omega
    have hmul : (fade_duration c - 1) * c.speed + c.speed = fade_duration c * c.speed := by
      rw [← Nat.succ_mul]; congr 1; omega
    rw [hsucc, Function.iterate_succ_apply', ← i1]
    apply fade_up_final _ i3
    · rw [i1]; omega
    · rw [i2]; exact hs
    · rw [i2]
      rcases Nat.eq_zero_or_pos (fade_duration c - 1) with h0 | hpos
      · left; rw [h0]; exact hr
      · right
        have : c.speed ≤ (fade_duration c - 1) * c.speed := Nat.le_mul_of_pos_left _ hpos
        omega
    · rw [i1, i2, i4]; omega
  · intro k hk
    obtain ⟨i1, i2, i3, i4⟩ := fade_up_invariant c hr ht k (below k hk)
    have := below k hk
    omega

theorem fade_down_duration (c : Channel) (hr : c.remainder = 0) (hb : c.brightness < 256)
    (hs : c.speed ≤ 65280) (q : Nat)
    (q1 : (c.target_brightness + 1) * 256 + q * c.speed ≤ c.brightness * 256)
    (q2 : c.brightness * 256 < (c.target_brightness + 1) * 256 + q * c.speed + c.speed) :
    first_at_target c (q + 1) := by
  have above : ∀ k, k < q + 1 →
      (c.target_brightness + 1) * 256 + k * c.speed ≤ c.brightness * 256 := by
    intro k hk
    have : k * c.speed ≤ q * c.speed := Nat.mul_le_mul_right _ (by omega)
    omega
  constructor
  · obtain ⟨i1, i2, i3, i4, i5⟩ := fade_down_invariant c hr hb q q1
    rw [Function.iterate_succ_apply', ← i1]
    apply fade_down_final _ i3
    · rw [i1]; omega
    · rw [i2]; exact hs
    · rw [i1, i2]; omega
  · intro k hk
    obtain ⟨i1, i2, i3, i4, i5⟩ := fade_down_invariant c hr hb k (above k hk)
    have := above k hk
    omega

theorem fade_down_bound (a s C q : Nat) (hs : 256 ≤ s)
    (q1 : q * s + 256 ≤ a) (q2 : a < q * s + s + 256)
    (c1 : a ≤ C * s) (c2 : (C - 1) * s < a) (c0 : 1 ≤ C) :
    q + 1 ≤ C ∧ C ≤ q + 1 + 1 := by
  constructor
  · by_contra hcon
    have : C * s ≤ q * s := Nat.mul_le_mul_right _ (by omega)
    omega
  · by_contra hcon
    have : (q + 2) * s ≤ (C - 1) * s := Nat.mul_le_mul_right _ (by omega)
    rw [Nat.add_mul] at this
    omega

/-- C9 (amended): fade duration law with the whole 16-bit speed as divisor.
Starting with remainder 0, target `t ≠ b` and a speed with high byte at least
1 (and at most 0xFF00 when fading down), the channel reaches its target for
the first time after `n` calls of `do_fading`, where `n` differs by at most 1
from `ceil(|t - b| * 256 / speed)`: `n ≤ ceil ≤ n + 1`. -/
theorem C9_fade_duration (c : Channel) (hr : c.remainder = 0)
    (hb : c.brightness < 256) (ht : c.target_brightness < 256)
    (hne : c.brightness ≠ c.target_brightness)
    (hhigh : 1 ≤ HIGH c.speed) (hs : c.speed < 65536)
    (hdir : c.brightness < c.target_brightness ∨ c.speed ≤ 0xFF00) :
    ∃ n, first_at_target c n ∧ n ≤ fade_duration c ∧ fade_duration c ≤ n + 1 := by
  rw [HIGH_eq] at hhigh
  have hs256 : 256 ≤ c.speed := by omega
  rcases Nat.lt_or_gt_of_ne hne with hlt | hgt
  · exact ⟨fade_duration c, fade_up_duration c hr hlt ht (by omega) hs, le_refl _, by omega⟩
  · have hs' : c.speed ≤ 65280 := by omega
    have hd : fade_duration c
        = ceil_div ((c.brightness - c.target_brightness) * 256) c.speed := by
      unfold fade_duration; rw [fade_distance_down c hgt]
    obtain ⟨n1, n2, n3⟩ :=
      ceil_div_spec ((c.brightness - c.target_brightness) * 256) c.speed (by omega) (by omega)
    rw [← hd] at n1 n2 n3
    have q1 := Nat.div_mul_le_self ((c.brightness - c.target_brightness - 1) * 256) c.speed
    have q2 := Nat.lt_mul_div_succ ((c.brightness - c.target_brightness - 1) * 256)
      (show 0 < c.speed by omega)
    rw [Nat.mul_add, Nat.mul_one, Nat.mul_comm c.speed] at q2
    generalize (c.brightness - c.target_brightness - 1) * 256 / c.speed = q at q1 q2
    have hbound := fade_down_bound ((c.brightness - c.target_brightness) * 256) c.speed
      (fade_duration c) q hs256 (by omega) (by omega) n2 n3 n1
    exact ⟨q + 1, fade_down_duration c hr hb hs' q (by omega) (by omega),
      hbound.1, hbound.2⟩

/-- C9 (amended) at brightness 10, target 255, speed 0x0180. -/
theorem C9_fade_duration_witness :
    (s5_channel.remainder = 0 ∧ s5_channel.brightness ≠ s5_channel.target_brightness ∧
      1 ≤ HIGH s5_channel.speed) ∧
    ∃ n, first_at_target s5_channel n ∧ n ≤ fade_duration s5_channel ∧
      fade_duration s5_channel ≤ n + 1 :=
  ⟨by decide,
    C9_fade_duration s5_channel rfl (by decide) (by decide) (by decide) (by decide)
      (by decide) (by decide)⟩

/-- C9 (as stated) fails from brightness 0 to target 1 at speed 0x0100: the
target is reached after 1 call, while `ceil(|t - b| * 256 / high(speed))` is
256. -/
theorem C9_counterexample :
    (one_level_channel.remainder = 0 ∧
      one_level_channel.brightness ≠ one_level_channel.target_brightness ∧
      1 ≤ HIGH one_level_channel.speed) ∧
    first_at_target one_level_channel 1 ∧
    claimed_fade_duration one_level_channel = 256 ∧
    ¬ (1 ≤ claimed_fade_duration one_level_channel + 1 ∧
        claimed_fade_duration one_level_channel ≤ 1 + 1) := by
  decide

/-! ## Dispatcher: target commands -/

/-- C11: for channel `k` the increment command sets `target(k)` to
`(target(k) + 1) mod 256` and the decrement command to `(target(k) - 1) mod 256`;
the other channels, the other fields of channel `k`, the schedule, the flags,
the registers and the sink are untouched.  With the target a byte, an
increment followed by the matching decrement, or the reverse, restores the
state; 255 + 1 wraps to 0 and 0 - 1 wraps to 255. -/
theorem C11_target_commands (s : State) (k : Nat) (hk : k < 3)
    (ht : (s.channels.get k).target_brightness < 256) :
    SIG_UART_RECV s (inc_command k)
      = { s with channels :=
            set_target s.channels k (((s.channels.get k).target_brightness + 1) % 256) } ∧
    SIG_UART_RECV s (dec_command k)
      = { s with channels :=
            set_target s.channels k (((s.channels.get k).target_brightness + 256 - 1) % 256) } ∧
    (∀ i, i < 3 → i ≠ k →
      (SIG_UART_RECV s (inc_command k)).channels.get i = s.channels.get i ∧
      (SIG_UART_RECV s (dec_command k)).channels.get i = s.channels.get i) ∧
    SIG_UART_RECV (SIG_UART_RECV s (inc_command k)) (dec_command k) = s ∧
    SIG_UART_RECV (SIG_UART_RECV s (dec_command k)) (inc_command k) = s ∧
    (SIG_UART_RECV (state_of (channels_at 255 255 255)) (inc_command k)).channels.get k
      = { init_record k 255 with target_brightness := 0 } ∧
    (SIG_UART_RECV (state_of (channels_at 0 0 0)) (dec_command k)).channels.get k
      = { init_record k 0 with target_brightness := 255 } := by
  obtain ⟨⟨c0, c1, c2⟩, pwm, flags, ocr, port, uart⟩ := s
  interval_cases k
  all_goals
    simp only [Channels.get] at ht
    refine ⟨rfl, rfl, ?_, ?_, ?_, by decide, by decide⟩
  all_goals first
    | (intro i hi hne; interval_cases i <;> first | omega | exact ⟨rfl, rfl⟩)
    | (simp only [SIG_UART_RECV, inc_command, dec_command, set_target, Channels.set, Channels.get]
       cases c0; cases c1; cases c2
       simp at ht ⊢
       omega)

/-- C11 at the start state of scenario S6, channel 0. -/
theorem C11_target_commands_witness :
    (0 < 3 ∧ (s6_state.channels.get 0).target_brightness < 256) ∧
    SIG_UART_RECV (SIG_UART_RECV s6_state (inc_command 0)) (dec_command 0) = s6_state ∧
    SIG_UART_RECV (SIG_UART_RECV s6_state (dec_command 0)) (inc_command 0) = s6_state :=
  ⟨by decide,
    (C11_target_commands s6_state 0 (by decide) (by decide)).2.2.2.1,
    (C11_target_commands s6_state 0 (by decide) (by decide)).2.2.2.2.1⟩

theorem do_fading_speeds (chs : Channels) :
    speeds_positive (do_fading chs) ↔ speeds_positive chs := by
  have h : ∀ c, (fade_channel c).speed = c.speed := fun c => (fade_channel_ref c).2.1
  simp only [speeds_positive, do_fading_eq, h]

theorem main_new_cycle_channels (s : State) :
    (main_new_cycle s).channels = do_fading s.channels := by
  simp only [main_new_cycle]

theorem main_last_pulse_channels (s : State) : (main_last_pulse s).channels = s.channels := by
  simp only [main_last_pulse]

theorem recv_slower_channels (s : State) :
    (SIG_UART_RECV s (Char.toNat '>')).channels
      = set_speed
          (set_speed (set_speed s.channels 0 (s.channels.c0.speed >>> 1)) 1
            (s.channels.c1.speed >>> 1))
          2 (s.channels.c2.speed >>> 1) := rfl

theorem recv_faster_channels (s : State) :
    (SIG_UART_RECV s (Char.toNat '<')).channels
      = set_speed
          (set_speed (set_speed s.channels 0 ((s.channels.c0.speed <<< 1) % 65536)) 1
            ((s.channels.c1.speed <<< 1) % 65536))
          2 ((s.channels.c2.speed <<< 1) % 65536) := rfl

theorem recv_not_command (s : State) (data : Nat) (h : data ∉ command_set) :
    SIG_UART_RECV s data = s := by
  simp only [command_set, List.map_cons, List.map_nil, List.mem_cons, List.mem_singleton,
    List.not_mem_nil, not_or, or_false] at h
  obtain ⟨h0, h1, h2, h3, h4, h5, h6, h7, h8, h9, h10, h11⟩ := h
  simp only [SIG_UART_RECV, h0, h1, h2, h3, h4, h5, h6, h7, h8, h9, h10, h11, if_false]

theorem recv_other_speeds (s : State) (data : Nat)
    (hg : data ≠ Char.toNat '>') (hl : data ≠ Char.toNat '<') :
    (SIG_UART_RECV s data).channels.c0.speed = s.channels.c0.speed ∧
    (SIG_UART_RECV s data).channels.c1.speed = s.channels.c1.speed ∧
    (SIG_UART_RECV s data).channels.c2.speed = s.channels.c2.speed := by
  by_cases hm : data ∈ command_set
  · simp only [command_set, List.map_cons, List.map_nil, List.mem_cons, List.mem_singleton,
      List.not_mem_nil, or_false] at hm
    rcases hm with h | h | h | h | h | h | h | h | h | h | h | h <;> subst h <;>
      first
      | exact ⟨rfl, rfl, rfl⟩
      | exact absurd rfl hg
      | exact absurd rfl hl
  · rw [recv_not_command s data hm]
    exact ⟨rfl, rfl, rfl⟩

/-- C13 (amended): `speed ≥ 1` holds for every channel after `init_pwm` and
is preserved by `do_fading`, by `update_pwm_timeslots` and by every received
byte, provided that for `'>'` every speed is at least 2 and for `'<'` no
speed is a multiple of 0x8000 (a speed of 1 is halved to 0, a speed of 0x8000
is doubled to 0). -/
theorem C13_speed_invariant (s : State) (data : Nat) (h : speeds_positive s.channels)
    (hgt : data = Char.toNat '>' →
      2 ≤ s.channels.c0.speed ∧ 2 ≤ s.channels.c1.speed ∧ 2 ≤ s.channels.c2.speed)
    (hlt : data = Char.toNat '<' →
      s.channels.c0.speed % 32768 ≠ 0 ∧ s.channels.c1.speed % 32768 ≠ 0 ∧
        s.channels.c2.speed % 32768 ≠ 0) :
    speeds_positive init_state.channels ∧
    speeds_positive (main_new_cycle s).channels ∧
    speeds_positive (main_last_pulse s).channels ∧
    speeds_positive (SIG_UART_RECV s data).channels := by
  rw [main_new_cycle_channels, main_last_pulse_channels, do_fading_speeds]
  refine ⟨by decide, h, h, ?_⟩
  by_cases hg : data = Char.toNat '>'
  · have h2 := hgt hg
    subst hg
    rw [recv_slower_channels]
    simp only [speeds_positive, set_speed, Channels.set, Channels.get,
      Nat.shiftRight_eq_div_pow]
    omega
  · by_cases hl : data = Char.toNat '<'
    · have h2 := hlt hl
      subst hl
      rw [recv_faster_channels]
      simp only [speeds_positive, set_speed, Channels.set, Channels.get, Nat.shiftLeft_eq]
      omega
    · obtain ⟨e0, e1, e2⟩ := recv_other_speeds s data hg hl
      unfold speeds_positive at h ⊢
      rw [e0, e1, e2]
      exact h

/-- C13 (amended) at the state after initialisation and the byte `'>'`. -/
theorem C13_speed_invariant_witness :
    speeds_positive init_state.channels ∧
    speeds_positive (SIG_UART_RECV init_state (Char.toNat '>')).channels ∧
    (SIG_UART_RECV init_state (Char.toNat '>')).channels.c0.speed = 0x0080 :=
  ⟨by decide,
    (C13_speed_invariant init_state (Char.toNat '>') (by decide) (fun _ => by decide)
      (fun h => absurd h (by decide))).2.2.2,
    by decide⟩

/-- C13 (as stated) fails in a reachable state: nine `'>'` commands after
initialisation halve the speed 0x0100 down to 0 in every channel, and eight
`'<'` commands double it to 0. -/
theorem C13_counterexample :
    speeds_positive init_state.channels ∧
    (feed init_state (List.replicate 9 (Char.toNat '>'))).channels.c0.speed = 0 ∧
    ¬ speeds_positive (feed init_state (List.replicate 9 (Char.toNat '>'))).channels ∧
    ¬ speeds_positive (feed init_state (List.replicate 8 (Char.toNat '<'))).channels := by
  decide

theorem recv_halt_twice (s : State) :
    SIG_UART_RECV (SIG_UART_RECV s (Char.toNat '=')) (Char.toNat '=')
      = SIG_UART_RECV s (Char.toNat '=') := rfl

theorem feed_halt (s : State) (n : Nat) :
    feed (SIG_UART_RECV s (Char.toNat '=')) (List.replicate n (Char.toNat '='))
      = SIG_UART_RECV s (Char.toNat '=') := by
  induction n with
  | zero => rfl
  | succ n ih =>
    rw [List.replicate_succ, feed, List.foldl_cons, recv_halt_twice]
    exact ih

/-- C12: after one `'='` any further number `n` of `'='` commands leaves the
state as it is, and a second `'0'` right after a `'0'` leaves the state as it
is (no fade step in between). -/
theorem C12_command_idempotence (s : State) (n : Nat) :
    feed (SIG_UART_RECV s (Char.toNat '=')) (List.replicate n (Char.toNat '='))
      = SIG_UART_RECV s (Char.toNat '=') ∧
    SIG_UART_RECV (SIG_UART_RECV s (Char.toNat '0')) (Char.toNat '0')
      = SIG_UART_RECV s (Char.toNat '0') :=
  ⟨feed_halt s n, rfl⟩

/-- C14: a received byte that is not one of the twelve command bytes leaves
the whole state as it is: no channel field, no part of the timeslot schedule
changes and nothing is written to the sink. -/
theorem C14_unknown_byte_ignored (s : State) (data : Nat) (h : data ∉ command_set) :
    SIG_UART_RECV s data = s ∧
    (SIG_UART_RECV s data).channels = s.channels ∧
    (SIG_UART_RECV s data).pwm = s.pwm ∧
    (SIG_UART_RECV s data).uart = s.uart := by
  rw [recv_not_command s data h]
  exact ⟨rfl, rfl, rfl, rfl⟩

/-- C14 at the byte `'x'` in the state after initialisation. -/
theorem C14_unknown_byte_ignored_witness :
    Char.toNat 'x' ∉ command_set ∧ (SIG_UART_RECV init_state (Char.toNat 'x')).uart = init_state.uart ∧
    (SIG_UART_RECV init_state (Char.toNat 'x')).channels = init_state.channels :=
  ⟨by decide,
    (C14_unknown_byte_ignored init_state (Char.toNat 'x') (by decide)).2.2.2,
    (C14_unknown_byte_ignored init_state (Char.toNat 'x') (by decide)).2.1⟩

/-! ## Sorting step and gamma table -/

/-- C17 (amended): the sorting loops produce a permutation of {0, 1, 2} in
ascending order of brightness (channels of equal brightness in no fixed index
order: the exchange sort is not stable).  For brightness (100, 100, 50) the
sorted order is c2, c1, c0. -/
theorem C17_sort_ascending (chs : Channels) :
    List.Perm (sort_channels chs) [0, 1, 2] ∧
    ((sort_channels chs).map (fun i => (chs.get i).brightness)).Sorted (· ≤ ·) ∧
    sort_channels (channels_at 100 100 50) = [2, 1, 0] := by
  refine ⟨?_, ?_, by decide⟩
  · rw [sort_channels_eq, sort_swap_01]
    split <;> rw [sort_swap_02] <;> split <;> rw [sort_swap_12] <;> split <;> decide
  · rw [sort_channels_eq, sort_swap_01]
    split <;> rw [sort_swap_02] <;> split <;> rw [sort_swap_12] <;> split <;>
      rename_i h1 h2 h3 <;>
      simp only [Channels.get] at h1 h2 h3 <;>
      simp only [List.map_cons, List.map_nil, Channels.get, List.Sorted, List.pairwise_cons,
        List.mem_cons, List.mem_singleton, List.not_mem_nil, forall_eq_or_imp, forall_eq,
        List.Pairwise.nil, false_implies, implies_true, and_true] <;>
      omega

/-- C17 (as stated) fails at brightness (100, 100, 50): the sorted order is
c2, c1, c0, so of the two channels at brightness 100 the one with the higher
index comes first. -/
theorem C17_counterexample :
    levels (channels_at 100 100 50).toList = [100, 100, 50] ∧
    sort_channels (channels_at 100 100 50) = [2, 1, 0] ∧
    sort_channels (channels_at 100 100 50) ≠ [2, 0, 1] := by
  decide

/-- C18 (amended): the gamma table holds 254 unsigned 16-bit values, one for
each level `b` in `1..254`, read at `timeslot_table[b-1]`.  The values of the
levels `1..180` are strictly increasing and lie in [2, 63779]; the values of
the levels `181..254` are strictly increasing and lie in [489, 62998]. -/
theorem C18_table_halves :
    timeslot_table.length = 254 ∧
    (∀ b, 1 ≤ b → b ≤ 254 → pgm_read_word (b - 1) < 65536) ∧
    (∀ a b, 1 ≤ a → a < b → b ≤ 180 → pgm_read_word (a - 1) < pgm_read_word (b - 1)) ∧
    (∀ b, 1 ≤ b → b ≤ 180 → 2 ≤ pgm_read_word (b - 1) ∧ pgm_read_word (b - 1) ≤ 63779) ∧
    (∀ a b, 181 ≤ a → a < b → b ≤ 254 → pgm_read_word (a - 1) < pgm_read_word (b - 1)) ∧
    (∀ b, 181 ≤ b → b ≤ 254 →
      489 ≤ pgm_read_word (b - 1) ∧ pgm_read_word (b - 1) ≤ 62998) ∧
    (pgm_read_word 0 = 2 ∧ pgm_read_word 179 = 63779 ∧ pgm_read_word 180 = 489 ∧
      pgm_read_word 253 = 62998) := by
  have e0 : pgm_read_word 0 = 2 := by decide
  have e179 : pgm_read_word 179 = 63779 := by decide
  have e180 : pgm_read_word 180 = 489 := by decide
  have e253 : pgm_read_word 253 = 62998 := by decide
  refine ⟨table_length, ?_, ?_, ?_, ?_, ?_, e0, e179, e180, e253⟩
  · intro b h1 h2
    have := (table_bound (b - 1) (by omega)).2
    omega
  · intro a b h1 h2 h3
    exact table_mono_lo (a - 1) (b - 1) (by omega) (by omega)
  · intro b h1 h2
    refine ⟨(table_bound (b - 1) (by omega)).1, ?_⟩
    rcases Nat.lt_or_eq_of_le h2 with h | h
    · have := table_mono_lo (b - 1) 179 (by omega) (by omega)
      omega
    · subst h; exact le_of_eq e179
  · intro a b h1 h2 h3
    exact table_mono_hi (a - 1) (b - 1) (by omega) (by omega) (by omega)
  · intro b h1 h2
    constructor
    · rcases Nat.lt_or_eq_of_le h1 with h | h
      · have := table_mono_hi 180 (b - 1) (by omega) (by omega) (by omega)
        omega
      · subst h; exact le_of_eq e180.symm
    · rcases Nat.lt_or_eq_of_le h2 with h | h
      · have := table_mono_hi (b - 1) 253 (by omega) (by omega) (by omega)
        omega
      · subst h; exact le_of_eq e253

/-- C18 (as stated) fails: the table has 254 entries, not 256, and the entry
of level 181 is 489, below the entry 63779 of level 180, so the values of the
levels `1..181` are not strictly increasing and the level 255 has no entry. -/
theorem C18_counterexample :
    timeslot_table.length = 254 ∧ timeslot_table.length ≠ 256 ∧
    pgm_read_word (181 - 1) = 489 ∧ pgm_read_word (180 - 1) = 63779 ∧
    ¬ (pgm_read_word (180 - 1) < pgm_read_word (181 - 1)) ∧
    timeslot_table[255 - 1]? = none := by
  refine ⟨table_length, ?_, by decide, by decide, by decide, ?_⟩
  · rw [table_length]; decide
  · exact List.getElem?_eq_none (by rw [table_length])

/-! ## Slot cursor -/

theorem prepare_iterate (s : State) (h0 : s.pwm.index = 0) (hn : s.pwm.count < 256)
    (k : Nat) (hk : k ≤ s.pwm.count) :
    (prepare_next_timeslot^[k] s).pwm.index = k ∧
    (prepare_next_timeslot^[k] s).pwm.slots = s.pwm.slots ∧
    (prepare_next_timeslot^[k] s).pwm.count = s.pwm.count ∧
    (prepare_next_timeslot^[k] s).pwm.initial_bitmask = s.pwm.initial_bitmask ∧
    (prepare_next_timeslot^[k] s).flags = s.flags ∧
    (1 ≤ k → (prepare_next_timeslot^[k] s).OCR1B = (s.pwm.slots (k - 1)).top ∧
      (prepare_next_timeslot^[k] s).pwm.next_bitmask = (s.pwm.slots (k - 1)).mask) := by
  induction k with
  | zero => exact ⟨h0, rfl, rfl, rfl, rfl, fun h => absurd h (by decide)⟩
  | succ k ih =>
    obtain ⟨i1, i2, i3, i4, i5, -⟩ := ih (by omega)
    rw [Function.iterate_succ_apply']
    generalize prepare_next_timeslot^[k] s = t at i1 i2 i3 i4 i5
    have hlt : ¬ t.pwm.index ≥ t.pwm.count := by omega
    unfold prepare_next_timeslot
    rw [if_neg hlt]
    dsimp only
    rw [i1, i2, Nat.add_sub_cancel]
    exact ⟨by omega, rfl, i3, i4, i5, fun _ => ⟨rfl, rfl⟩⟩

theorem prepare_last (t : State) (h : t.pwm.index ≥ t.pwm.count) :
    (prepare_next_timeslot t).flags.last_pulse = 1 ∧
    (prepare_next_timeslot t).pwm.index = 0 ∧
    (prepare_next_timeslot t).OCR1B = 65000 ∧
    (prepare_next_timeslot t).pwm.slots = t.pwm.slots ∧
    (prepare_next_timeslot t).pwm.count = t.pwm.count ∧
    (prepare_next_timeslot t).pwm.initial_bitmask = t.pwm.initial_bitmask := by
  unfold prepare_next_timeslot
  rw [if_pos h]
  exact ⟨rfl, rfl, rfl, rfl, rfl, rfl⟩

/-- C15: from a state with `index = 0` and `count = n` (as
`update_pwm_timeslots` leaves it), the `k`-th call of `prepare_next_timeslot`,
`1 ≤ k ≤ n`, programs compare B with `slots[k-1].top`, stages
`next_bitmask := slots[k-1].mask`, sets `index = k` and leaves the flags as
they are; call `n + 1` raises `last_pulse`, resets `index` to 0 and arms
compare B at 65000, above the compare A top 64000.  No call modifies `slots`,
`count` or `initial_bitmask`. -/
theorem C15_slot_cursor (s : State) (k : Nat) (h0 : s.pwm.index = 0)
    (hn : s.pwm.count < 256) (hk : 1 ≤ k ∧ k ≤ s.pwm.count) :
    ((prepare_next_timeslot^[k] s).OCR1B = (s.pwm.slots (k - 1)).top ∧
      (prepare_next_timeslot^[k] s).pwm.next_bitmask = (s.pwm.slots (k - 1)).mask ∧
      (prepare_next_timeslot^[k] s).pwm.index = k ∧
      (prepare_next_timeslot^[k] s).flags = s.flags ∧
      (prepare_next_timeslot^[k] s).pwm.slots = s.pwm.slots ∧
      (prepare_next_timeslot^[k] s).pwm.count = s.pwm.count ∧
      (prepare_next_timeslot^[k] s).pwm.initial_bitmask = s.pwm.initial_bitmask) ∧
    ((prepare_next_timeslot^[s.pwm.count + 1] s).flags.last_pulse = 1 ∧
      (prepare_next_timeslot^[s.pwm.count + 1] s).pwm.index = 0 ∧
      (prepare_next_timeslot^[s.pwm.count + 1] s).OCR1B = 65000 ∧
      64000 < (prepare_next_timeslot^[s.pwm.count + 1] s).OCR1B ∧
      (prepare_next_timeslot^[s.pwm.count + 1] s).pwm.slots = s.pwm.slots ∧
      (prepare_next_timeslot^[s.pwm.count + 1] s).pwm.count = s.pwm.count ∧
      (prepare_next_timeslot^[s.pwm.count + 1] s).pwm.initial_bitmask
        = s.pwm.initial_bitmask) := by
  constructor
  · obtain ⟨i1, i2, i3, i4, i5, i6⟩ := prepare_iterate s h0 hn k hk.2
    exact ⟨(i6 hk.1).1, (i6 hk.1).2, i1, i5, i2, i3, i4⟩
  · obtain ⟨i1, i2, i3, i4, i5, -⟩ := prepare_iterate s h0 hn s.pwm.count (le_refl _)
    rw [Function.iterate_succ_apply']
    obtain ⟨l1, l2, l3, l4, l5, l6⟩ :=
      prepare_last (prepare_next_timeslot^[s.pwm.count] s) (by omega)
    exact ⟨l1, l2, l3, by omega, l4.trans i2, l5.trans i3, l6.trans i4⟩

/-- C15 at the state after initialisation (`count = 4`), second call. -/
theorem C15_slot_cursor_witness :
    (init_state.pwm.index = 0 ∧ init_state.pwm.count = 4) ∧
    (prepare_next_timeslot^[2] init_state).OCR1B = (init_state.pwm.slots 1).top ∧
    (prepare_next_timeslot^[2] init_state).pwm.index = 2 ∧
    (prepare_next_timeslot^[init_state.pwm.count + 1] init_state).flags.last_pulse = 1 :=
  ⟨by decide,
    (C15_slot_cursor init_state 2 (by decide) (by decide) (by decide)).1.1,
    (C15_slot_cursor init_state 2 (by decide) (by decide) (by decide)).1.2.2.1,
    (C15_slot_cursor init_state 2 (by decide) (by decide) (by decide)).2.1⟩
/-! ## Spin loop of the cycle-start interrupt -/

theorem spin_safe (slots : Nat → Slot) (p count : Nat) (hp : (slots p).top = 65000)
    (ts : List Nat) (hts : ∀ t ∈ ts, t ≤ 64000) (inner : Bool) (r : Spin)
    (h1 : r.state.pwm.slots = slots) (h2 : r.state.pwm.index ≤ p)
    (h3 : inner = true → r.state.pwm.index < p) (h4 : ∀ i ∈ r.reads, i ≤ p)
    (h5 : ∀ i ∈ r.ored, i < p) (h6 : r.state.pwm.count = count) (hc : p < 256) :
    (spin_catchup ts inner r).state.pwm.slots = slots ∧
    (spin_catchup ts inner r).state.pwm.index ≤ p ∧
    (∀ i ∈ (spin_catchup ts inner r).reads, i ≤ p) ∧
    (∀ i ∈ (spin_catchup ts inner r).ored, i < p) ∧
    (spin_catchup ts inner r).state.pwm.count = count := by
  induction ts generalizing inner r with
  | nil => exact ⟨h1, h2, h4, h5, h6⟩
  | cons t ts ih =>
    have ht : t ≤ 64000 := hts t (List.mem_cons_self _ _)
    have hts' : ∀ t ∈ ts, t ≤ 64000 := fun t h => hts t (List.mem_cons_of_mem _ h)
    have hreads : ∀ i ∈ r.reads ++ [r.state.pwm.index], i ≤ p := by
      intro i hi
      rcases List.mem_append.mp hi with h | h
      · exact h4 i h
      · rw [List.mem_singleton.mp h]; exact h2
    cases inner with
    | false =>
      simp only [spin_catchup]
      split_ifs with hg
      · refine ih hts' true _ ?_ ?_ ?_ ?_ ?_ ?_
        · exact h1
        · exact h2
        · intro _
          rcases Nat.lt_or_eq_of_le h2 with h | h
          · exact h
          · exfalso
            rw [h1, h, hp] at hg
            omega
        · exact hreads
        · exact h5
        · exact h6
      · exact ⟨h1, h2, hreads, h5, h6⟩
    | true =>
      have hlt := h3 rfl
      simp only [spin_catchup]
      split_ifs with hg
      · refine ih hts' true _ ?_ ?_ ?_ ?_ ?_ ?_
        · exact h1
        · exact h2
        · exact fun _ => hlt
        · exact hreads
        · exact h5
        · exact h6
      · refine ih hts' false _ ?_ ?_ ?_ ?_ ?_ ?_
        · exact h1
        · show (r.state.pwm.index + 1) % 256 ≤ p
          omega
        · exact fun h => absurd h (by decide)
        · intro i hi
          rcases List.mem_append.mp hi with h | h
          · exact h4 i h
          · simp only [List.mem_cons, List.mem_singleton, List.not_mem_nil, or_false,
              or_self] at h
            rw [h]; exact h2
        · intro i hi
          rcases List.mem_append.mp hi with h | h
          · exact h5 i h
          · rw [List.mem_singleton.mp h]; exact hlt
        · exact h6

theorem schedule_getElem? (pwm : Timeslots) (i : Nat) (hi : i < pwm.count) :
    (schedule pwm)[i]? = some (pwm.slots i) := by
  simp [schedule, List.getElem?_map, List.getElem?_range hi]

/-- The middle interrupt has a position in every schedule, and the slots
before it have a top below the timer period. -/
theorem middle_position (chs : Channels) (pwm : Timeslots) :
    ∃ p, p < (update_pwm_timeslots chs pwm).count ∧
      (update_pwm_timeslots chs pwm).slots p = middle ∧
      ∀ i, i < p → ((update_pwm_timeslots chs pwm).slots i).top < 64000 := by
  have hs := schedule_update chs pwm
  have hlen := schedule_length (update_pwm_timeslots chs pwm)
  generalize hA : (present_levels chs.toList 1 180).map (slot_for chs.toList) = A at hs
  generalize hB : (present_levels chs.toList 181 254).map (slot_for chs.toList) = B at hs
  have hcount : (update_pwm_timeslots chs pwm).count = A.length + 1 + B.length := by
    rw [← hlen, hs]; simp; omega
  refine ⟨A.length, by omega, ?_, ?_⟩
  · have h1 := schedule_getElem? (update_pwm_timeslots chs pwm) A.length (by omega)
    rw [hs, List.append_assoc, List.getElem?_append_right (le_refl _)] at h1
    simp at h1
    exact h1.symm
  · intro i hi
    have h1 := schedule_getElem? (update_pwm_timeslots chs pwm) i (by omega)
    rw [hs, List.append_assoc, List.getElem?_append_left hi] at h1
    have hmem : (update_pwm_timeslots chs pwm).slots i ∈ A := List.getElem?_mem h1
    rw [← hA] at hmem
    exact slot_top_lt _ 1 180 (by omega) _ hmem

/-- C16: for a schedule built by `update_pwm_timeslots` and timer readings
that do not exceed the period 64000, the spin loop never advances `index`
past the middle interrupt at position `p`: the guard `TCNT1 + 500 > top` is
false at `top = 65000`, every `slots[index]` the loop reads has
`index ≤ p < count`, the slots whose mask is ORed into the port lie before
`p` (so are not the middle interrupt), and on every exit `index < count`
leaves a slot for `prepare_next_timeslot`.  The loop does not alter the
schedule. -/
theorem C16_spin_catchup_safe (s : State) (chs : Channels) (pwm0 : Timeslots)
    (readings : List Nat) (hs : s.pwm = update_pwm_timeslots chs pwm0)
    (ht : ∀ t ∈ readings, t ≤ 64000) :
    ∃ p, p < s.pwm.count ∧ s.pwm.slots p = middle ∧
      (∀ t, t ≤ 64000 → ¬ ((t % 65536 + 500) % 65536 > (s.pwm.slots p).top)) ∧
      (spin_catchup readings false ⟨s, [], [], false⟩).state.pwm.index ≤ p ∧
      (spin_catchup readings false ⟨s, [], [], false⟩).state.pwm.index < s.pwm.count ∧
      (∀ i ∈ (spin_catchup readings false ⟨s, [], [], false⟩).reads, i ≤ p ∧ i < s.pwm.count) ∧
      (∀ i ∈ (spin_catchup readings false ⟨s, [], [], false⟩).ored,
        i < p ∧ s.pwm.slots i ≠ middle) ∧
      (spin_catchup readings false ⟨s, [], [], false⟩).state.pwm.slots = s.pwm.slots ∧
      (spin_catchup readings false ⟨s, [], [], false⟩).state.pwm.count = s.pwm.count := by
  obtain ⟨p, hp1, hp2, hp3⟩ := middle_position chs pwm0
  rw [← hs] at hp1 hp2 hp3
  have hcount : s.pwm.count ≤ 4 := by
    have := distinct_levels_length_le chs 1 254
    rw [hs, count_update]; omega
  have hidx : s.pwm.index = 0 := by rw [hs]; rfl
  obtain ⟨r1, r2, r3, r4, r5⟩ :=
    spin_safe s.pwm.slots p s.pwm.count (by rw [hp2]; rfl) readings ht false
      ⟨s, [], [], false⟩ rfl (by show s.pwm.index ≤ p; omega)
      (fun h => absurd h (by decide)) (fun i hi => absurd hi (List.not_mem_nil i))
      (fun i hi => absurd hi (List.not_mem_nil i)) rfl (by omega)
  refine ⟨p, hp1, hp2, ?_, r2, by omega, ?_, ?_, r1, r5⟩
  · intro t ht'
    rw [hp2]
    simp only [middle]
    omega
  · intro i hi
    have := r3 i hi
    exact ⟨this, by omega⟩
  · intro i hi
    have h := r4 i hi
    refine ⟨h, ?_⟩
    intro hm
    have := hp3 i h
    rw [hm] at this
    simp [middle] at this

/-- C16 at the schedule of the state after initialisation (tops 126, 386,
443, 65000) with readings that make the loop catch up all three slots. -/
theorem C16_spin_catchup_safe_witness :
    (init_state.pwm = update_pwm_timeslots init_channels pwm_zero ∧
      ∀ t ∈ [0, 126, 127, 386, 387, 443, 444], t ≤ 64000) ∧
    (∃ p, p < init_state.pwm.count ∧ init_state.pwm.slots p = middle ∧
      (∀ t, t ≤ 64000 → ¬ ((t % 65536 + 500) % 65536 > (init_state.pwm.slots p).top)) ∧
      (spin_catchup [0, 126, 127, 386, 387, 443, 444] false
        ⟨init_state, [], [], false⟩).state.pwm.index ≤ p ∧
      (spin_catchup [0, 126, 127, 386, 387, 443, 444] false
        ⟨init_state, [], [], false⟩).state.pwm.index < init_state.pwm.count ∧
      (∀ i ∈ (spin_catchup [0, 126, 127, 386, 387, 443, 444] false
        ⟨init_state, [], [], false⟩).reads, i ≤ p ∧ i < init_state.pwm.count) ∧
      (∀ i ∈ (spin_catchup [0, 126, 127, 386, 387, 443, 444] false
        ⟨init_state, [], [], false⟩).ored, i < p ∧ init_state.pwm.slots i ≠ middle) ∧
      (spin_catchup [0, 126, 127, 386, 387, 443, 444] false
        ⟨init_state, [], [], false⟩).state.pwm.slots = init_state.pwm.slots ∧
      (spin_catchup [0, 126, 127, 386, 387, 443, 444] false
        ⟨init_state, [], [], false⟩).state.pwm.count = init_state.pwm.count) ∧
    ((spin_catchup [0, 126, 127, 386, 387, 443, 444] false
        ⟨init_state, [], [], false⟩).exited = true ∧
      (spin_catchup [0, 126, 127, 386, 387, 443, 444] false
        ⟨init_state, [], [], false⟩).state.pwm.index = 3 ∧
      (spin_catchup [0, 126, 127, 386, 387, 443, 444] false
        ⟨init_state, [], [], false⟩).ored = [0, 1, 2]) :=
  ⟨⟨rfl, by decide⟩,
    C16_spin_catchup_safe init_state init_channels pwm_zero
      [0, 126, 127, 386, 387, 443, 444] rfl (by decide),
    by decide⟩

/-! ## Array accesses of the scheduler -/

theorem ne_middle_of_top (m t : Nat) (h : t < 64000) :
    (({ mask := m, top := t } : Slot) ≠ middle) = True := by
  apply eq_true
  intro e
  have := congrArg Slot.top e
  simp only [middle] at this
  omega

theorem max_timeslots_eq : (PWM_MAX_TIMESLOTS : Int) = 4 := by decide

set_option maxHeartbeats 4000000 in
theorem walk_sorted_accesses (x y z : Channel) (slots : Nat → Slot)
    (hxy : x.brightness ≤ y.brightness) (hyz : y.brightness ≤ z.brightness) :
    ∀ a ∈ (walk_finish ([x, y, z].foldl walk_channel (walk_init slots))).log, access_ok a := by
  have tx := fun h => (table_bound (x.brightness - 1) h).2
  have ty := fun h => (table_bound (y.brightness - 1) h).2
  have tz := fun h => (table_bound (z.brightness - 1) h).2
  rcases class3 x.brightness with hx | hx | hx <;>
  rcases class3 y.brightness with hy | hy | hy <;>
  rcases class3 z.brightness with hz | hz | hz <;>
  rcases Nat.lt_or_eq_of_le hxy with h1 | h1 <;>
  rcases Nat.lt_or_eq_of_le hyz with h2 | h2 <;>
  first
  | (exfalso; omega)
  | (simp (disch := omega) only [walk_finish, walk_channel, walk_init, insert_middle,
      List.foldl_cons, List.foldl_nil, if_pos, if_neg, Nat.reduceAdd, Nat.reduceMod,
      Nat.reduceSub, write, List.nil_append, List.cons_append, List.append_assoc,
      List.singleton_append, Nat.reduceEqDiff, if_true, if_false,
      List.mem_cons, List.mem_singleton, forall_eq_or_imp, forall_eq, List.not_mem_nil,
      false_implies, implies_true, and_true, access_ok, ne_middle_of_top,
      max_timeslots_eq, table_length, Nat.cast_ofNat, Nat.cast_zero, Nat.cast_one,
      OfNat.ofNat_ne_zero, OfNat.zero_ne_ofNat, OfNat.ofNat_ne_one, OfNat.one_ne_ofNat,
      one_ne_zero, zero_ne_one]
     first | done | omega)

/-- C19: the scheduler is total and every array access it makes is in
bounds: each write `slots[j]` has `0 ≤ j ≤ 3`, the mask overwrite
`slots[j-1]` of the collapse branch happens only with `j ≥ 1` and never hits
the middle interrupt, and each read `timeslot_table[brightness-1]` has an
index below the table length 254. -/
theorem C19_accesses_in_bounds (chs : Channels) (slots : Nat → Slot) (a : Access)
    (ha : a ∈ (build_slots chs slots).log) :
    access_ok a ∧ (update_pwm_timeslots chs ⟨slots, 0, 0, 0, 0⟩).count ≤ PWM_MAX_TIMESLOTS := by
  obtain ⟨x, y, z, -, hxy, hyz, hb⟩ := sort_channels_sorted chs
  rw [hb] at ha
  refine ⟨walk_sorted_accesses x y z slots hxy hyz a ha, ?_⟩
  have := distinct_levels_length_le chs 1 254
  rw [count_update]
  show 1 + _ ≤ 4
  omega

/-- C19 at brightness (100, 100, 50): the mask overwrite of the collapse
branch goes to `slots[1]`, which holds the slot of level 100. -/
theorem C19_accesses_in_bounds_witness :
    Access.mask_write 1 { mask := 6, top := 19685 }
      ∈ (build_slots (channels_at 100 100 50) pwm_zero.slots).log ∧
    access_ok (Access.mask_write 1 { mask := 6, top := 19685 }) :=
  ⟨by decide,
    (C19_accesses_in_bounds (channels_at 100 100 50) pwm_zero.slots
      (Access.mask_write 1 { mask := 6, top := 19685 }) (by decide)).1⟩

/-! ## Fade convergence theorems -/

theorem fade_in_range (c : Channel) (h : c.in_range) :
    (fade_channel c).in_range ∧ (fade_channel c).speed = c.speed ∧
    (fade_channel c).target_brightness = c.target_brightness := by
  obtain ⟨h1, h2, h3, h4⟩ := h
  simp only [Channel.in_range, fade_channel, HIGH_eq, LOW_eq, Nat.shiftLeft_eq]
  split_ifs <;> (try dsimp only) <;> omega

theorem fade_variant_decreases (c : Channel) (h : c.in_range) (hs : 1 ≤ c.speed)
    (hne : c.brightness ≠ c.target_brightness) :
    fade_variant (fade_channel c) < fade_variant c := by
  obtain ⟨h1, h2, h3, h4⟩ := h
  simp only [fade_variant, fade_channel, HIGH_eq, LOW_eq, Nat.shiftLeft_eq]
  split_ifs <;> (try dsimp only at *) <;> omega

theorem fade_variant_bound (c : Channel) (h : c.in_range) : fade_variant c < 65536 := by
  obtain ⟨h1, h2, h3, h4⟩ := h
  unfold fade_variant
  split_ifs <;> omega

theorem fade_at_target (c : Channel) (h : c.brightness = c.target_brightness) :
    fade_channel c = c := by
  simp only [fade_channel, h, lt_irrefl, if_false, gt_iff_lt]

theorem fade_iterate_at_target (c : Channel) (h : c.brightness = c.target_brightness)
    (k : Nat) : fade_channel^[k] c = c :=
  Function.iterate_fixed (fade_at_target c h) k

theorem fade_reaches (m : Nat) (c : Channel) (h : c.in_range) (hs : 1 ≤ c.speed)
    (hm : fade_variant c ≤ m) :
    ∃ n, n ≤ m ∧ (fade_channel^[n] c).brightness = c.target_brightness ∧
      (fade_channel^[n] c).target_brightness = c.target_brightness := by
  induction m generalizing c with
  | zero =>
    refine ⟨0, le_refl _, ?_, rfl⟩
    by_contra hne
    have := fade_variant_decreases c h hs hne
    omega
  | succ m ih =>
    by_cases hne : c.brightness = c.target_brightness
    · exact ⟨0, Nat.zero_le _, hne, rfl⟩
    · obtain ⟨r1, r2, r3⟩ := fade_in_range c h
      have hd := fade_variant_decreases c h hs hne
      obtain ⟨n, hn, e1, e2⟩ := ih (fade_channel c) r1 (by omega) (by omega)
      refine ⟨n + 1, by omega, ?_, ?_⟩
      · rw [Function.iterate_succ_apply, e1, r3]
      · rw [Function.iterate_succ_apply, e2, r3]

theorem fade_frozen (c : Channel) (h : c.in_range) (hs : c.speed = 0) :
    fade_channel c = c := by
  obtain ⟨h1, h2, h3, h4⟩ := h
  obtain ⟨b, r, t, s, f, m⟩ := c
  simp only at h1 h2 h3 h4 hs
  subst hs
  simp only [fade_channel, HIGH_eq, LOW_eq, Nat.shiftLeft_eq]
  split_ifs <;> first
    | rfl
    | (simp only [Channel.mk.injEq, and_true, true_and]; omega)

/-- C20: a channel whose fields are within their C types and whose speed is
at least 1 reaches its target after some `n ≤ 65536` calls of `do_fading`
and stays there on every later call (target and speed are not touched by
`do_fading`); with speed 0 no call changes the brightness. -/
theorem C20_fade_convergence (chs : Channels) (i : Nat) (h : (chs.get i).in_range) :
    (1 ≤ (chs.get i).speed → ∃ n, n ≤ 65536 ∧ ∀ m, n ≤ m →
      ((do_fading^[m] chs).get i).brightness = (chs.get i).target_brightness ∧
      ((do_fading^[m] chs).get i).target_brightness = (chs.get i).target_brightness ∧
      ((do_fading^[m] chs).get i).speed = (chs.get i).speed) ∧
    ((chs.get i).speed = 0 → ∀ m,
      ((do_fading^[m] chs).get i).brightness = (chs.get i).brightness) := by
  constructor
  · intro hs
    obtain ⟨n, hn, e1, e2⟩ :=
      fade_reaches 65536 (chs.get i) h hs (le_of_lt (fade_variant_bound _ h))
    refine ⟨n, hn, ?_⟩
    intro m hm
    have hsplit : m = (m - n) + n := by omega
    rw [do_fading_iterate_get, hsplit, Function.iterate_add_apply,
      fade_iterate_at_target _ (e1.trans e2.symm)]
    refine ⟨e1, e2, ?_⟩
    clear hsplit hm e1 e2 hn
    induction n with
    | zero => rfl
    | succ n ih =>
      rw [Function.iterate_succ_apply']
      rw [(fade_channel_ref _).2.1, ih]
  · intro hs m
    rw [do_fading_iterate_get, Function.iterate_fixed (fade_frozen _ h hs) m]

/-- C20 at the channel of scenario S5 (brightness 10, target 255, speed 0x0180). -/
theorem C20_fade_convergence_witness :
    (((⟨s5_channel, s5_channel, s5_channel⟩ : Channels).get 0).in_range ∧
      1 ≤ ((⟨s5_channel, s5_channel, s5_channel⟩ : Channels).get 0).speed) ∧
    ∃ n, n ≤ 65536 ∧ ∀ m, n ≤ m →
      ((do_fading^[m] ⟨s5_channel, s5_channel, s5_channel⟩).get 0).brightness
        = ((⟨s5_channel, s5_channel, s5_channel⟩ : Channels).get 0).target_brightness ∧
      ((do_fading^[m] ⟨s5_channel, s5_channel, s5_channel⟩).get 0).target_brightness
        = ((⟨s5_channel, s5_channel, s5_channel⟩ : Channels).get 0).target_brightness ∧
      ((do_fading^[m] ⟨s5_channel, s5_channel, s5_channel⟩).get 0).speed
        = ((⟨s5_channel, s5_channel, s5_channel⟩ : Channels).get 0).speed :=
  ⟨by decide,
    (C20_fade_convergence ⟨s5_channel, s5_channel, s5_channel⟩ 0 (by decide)).1 (by decide)⟩

end Fnordlicht
